import Mathlib

/-!
# Verification of the Google-Maps-Scraper extraction and proxy core

Shallow embedding of the pure core of `src/maps_scraper.py`:
proxy-line parsing, proxy URL building, the round-robin proxy pool,
the three HTML/JSON extraction strategies and the detail enricher.

Modelling conventions:
* Python strings are Lean `String`s processed as `List Char`;
  `str.strip`/`str.lower` are modelled on the ASCII range (all inputs the
  program handles are ASCII-compatible in the relevant positions).
* Machine floats are carried as exact `Rat`: JSON numbers and
  `float(...)` results keep their exact decimal value.  `inf`/`nan`
  literals and underscore digit separators are not modelled (the string
  parsers reject them; no claim's input uses them).
* `html.unescape` is modelled for the core named-entity set only, and
  `str()` rendering of floats and containers is a placeholder — each is
  documented at its definition; no claim's verdict depends on either.
* Fallible Python code (`ValueError`, `TypeError`, uncaught exceptions)
  is modelled with `Option`: `none` is an exception escaping the function.
* `urllib.parse.urlsplit` is modelled for the components the program
  reads (scheme, netloc, username, password, hostname, port), including
  tab/CR/LF removal, lowercasing of the hostname up to a percent sign,
  first-colon port splitting, bracketed-host splitting and the
  bracket-imbalance error; the IPv6/IPvFuture content validation of
  bracketed hosts (CPython `_check_bracketed_host`) is not modelled, so
  the model accepts some malformed bracketed netlocs that CPython 3.11+
  rejects (no claim or witness depends on such inputs).
* `re` patterns are compiled by hand into deterministic scanners that
  implement the leftmost / greedy / lazy semantics of each concrete
  pattern used by the source.
-/

set_option maxRecDepth 10000

namespace MapsScraper

/-! ## Python string primitives -/

/-- ASCII whitespace recognised by `str.strip` / `str.split`. -/
def pyIsWs (c : Char) : Bool :=
  c = ' ' ∨ c = '\t' ∨ c = '\n' ∨ c = '\x0d' ∨ c = '\x0b' ∨ c = '\x0c'

/-- `str.strip()` with no argument: remove whitespace from both ends. -/
def pyStrip (s : String) : String :=
  ⟨((s.data.dropWhile pyIsWs).reverse.dropWhile pyIsWs).reverse⟩

/-- `pat in s` for `pat` and `s` character lists (Python substring test). -/
def hasSub (pat : List Char) : List Char → Bool
  | [] => pat.isEmpty
  | c :: rest => pat.isPrefixOf (c :: rest) || hasSub pat rest

/-- `value.split(None, 1)` on a string with no leading/trailing whitespace
and at least one interior whitespace character: the first token and the
remainder after the first whitespace run. -/
def splitOnceWs (l : List Char) : List Char × List Char :=
  (l.takeWhile (fun c => ¬ pyIsWs c),
   (l.dropWhile (fun c => ¬ pyIsWs c)).dropWhile pyIsWs)

/-- Decimal digit character. -/
def digitChar (n : Nat) : Char := Char.ofNat (48 + n)

/-- Numeric value of a list of ASCII digits. -/
def digitsVal (l : List Char) : Nat :=
  l.foldl (fun a c => a * 10 + (c.toNat - 48)) 0

/-- Decimal printing helper (structural fuel so that it kernel-reduces). -/
def natDecAux : Nat → Nat → List Char
  | 0, _ => []
  | fuel+1, n => if n < 10 then [digitChar n] else natDecAux fuel (n / 10) ++ [digitChar (n % 10)]

/-- Python `str(n)` for a non-negative integer. -/
def natDec (n : Nat) : String := ⟨natDecAux (n + 1) n⟩

/-- Characters unconditionally left unencoded by `urllib.parse.quote`. -/
def quoteAlwaysSafe (c : Char) : Bool :=
  c.isAlphanum ∨ c = '_' ∨ c = '.' ∨ c = '-' ∨ c = '~'

/-- UTF-8 bytes of a character (as `Nat`s below 256). -/
def utf8Bytes (c : Char) : List Nat :=
  let n := c.toNat
  if n < 128 then [n]
  else if n < 2048 then [192 + n / 64, 128 + n % 64]
  else if n < 65536 then [224 + n / 4096, 128 + (n / 64) % 64, 128 + n % 64]
  else [240 + n / 262144, 128 + (n / 4096) % 64, 128 + (n / 64) % 64, 128 + n % 64]

/-- Uppercase hexadecimal digit. -/
def hexUp (n : Nat) : Char := if n < 10 then digitChar n else Char.ofNat (55 + n)

/-- `urllib.parse.quote(s, safe=extraSafe)`: percent-encode every UTF-8
byte of every character outside the safe set. -/
def pyQuote (extraSafe : List Char) (s : String) : String :=
  ⟨s.data.flatMap (fun c =>
    if quoteAlwaysSafe c ∨ extraSafe.contains c then [c]
    else (utf8Bytes c).flatMap (fun b => ['%', hexUp (b / 16), hexUp (b % 16)]))⟩

/-- Hexadecimal digit test. -/
def isHexDigit (c : Char) : Bool :=
  c.isDigit ∨ ('a' ≤ c ∧ c ≤ 'f') ∨ ('A' ≤ c ∧ c ≤ 'F')

/-- Value of a hexadecimal digit. -/
def hexVal (c : Char) : Nat :=
  if c.isDigit then c.toNat - 48
  else if 'a' ≤ c ∧ c ≤ 'f' then c.toNat - 87
  else c.toNat - 55

/-- `urllib.parse.unquote`: decode `%XX` escapes (modelled byte-for-byte;
exact for ASCII payloads, which is all the program feeds it). -/
def pyUnquoteAux : List Char → List Char
  | [] => []
  | '%' :: h1 :: h2 :: rest =>
      if isHexDigit h1 ∧ isHexDigit h2 then
        Char.ofNat (hexVal h1 * 16 + hexVal h2) :: pyUnquoteAux rest
      else '%' :: pyUnquoteAux (h1 :: h2 :: rest)
  | c :: rest => c :: pyUnquoteAux rest

def pyUnquote (s : String) : String := ⟨pyUnquoteAux s.data⟩

/-- `urllib.parse.unquote_plus`: plus-to-space, then unquote. -/
def pyUnquotePlus (s : String) : String :=
  ⟨pyUnquoteAux (s.data.map (fun c => if c = '+' then ' ' else c))⟩

/-- ASCII lowercase of a string (Python `str.lower` on ASCII input). -/
def pyLower (s : String) : String := ⟨s.data.map Char.toLower⟩

/-! ## urlsplit model -/

/-- Characters allowed in a URL scheme (`urllib.parse.scheme_chars`). -/
def isSchemeChar (c : Char) : Bool :=
  c.isAlphanum ∨ c = '+' ∨ c = '-' ∨ c = '.'

/-- Split off the scheme as `urlsplit` does: the part before the first
colon counts as a scheme when it is nonempty, starts with a letter and
consists of scheme characters only; it is lowercased. -/
def splitScheme (u : List Char) : List Char × List Char :=
  let before := u.takeWhile (fun c => c ≠ ':')
  let rest := u.dropWhile (fun c => c ≠ ':')
  if rest.isEmpty then ([], u)
  else if before.isEmpty then ([], u)
  else if before.all isSchemeChar && (match before.head? with
      | some c => c.isAlpha
      | none => false) then
    (before.map Char.toLower, rest.drop 1)
  else ([], u)

/-- `s.rpartition(sep)` restricted to what the code needs: `some (before,
after)` splitting at the last separator, `none` when the separator is
absent. -/
def rpartAt (sep : Char) (l : List Char) : Option (List Char × List Char) :=
  if l.contains sep then
    some ((((l.reverse.dropWhile (fun c => c ≠ sep)).drop 1).reverse),
          (l.reverse.takeWhile (fun c => c ≠ sep)).reverse)
  else none

/-- The part of `s` strictly after the first occurrence of `sep`
(empty when `sep` is absent): the tail component of `s.partition(sep)`. -/
def afterFirst (sep : Char) (l : List Char) : List Char :=
  (l.dropWhile (fun c => c ≠ sep)).drop 1

/-- Hostname normalisation done by the `hostname` property: lowercase up
to the first percent sign (an IPv6 zone id is preserved as-is). -/
def hostnameNorm (h : List Char) : List Char :=
  (h.takeWhile (fun c => c ≠ '%')).map Char.toLower ++ h.dropWhile (fun c => c ≠ '%')

/-- Port string validation of the `port` property: nonempty, ASCII digits
only, value at most 65535. -/
def pyPortParse (l : List Char) : Option Nat :=
  if l ≠ [] ∧ l.all Char.isDigit then
    if digitsVal l ≤ 65535 then some (digitsVal l) else none
  else none

/-- The components of `urllib.parse.urlparse` read by the program. -/
structure UrlParts where
  scheme : String
  netloc : List Char
  username : Option String
  password : Option String
  hostname : Option String
  port : Option Nat
  deriving Repr, DecidableEq

/-- tab/CR/LF removal `urlsplit` applies to its input. -/
def urlFilter (url : String) : List Char :=
  url.data.filter (fun c => ¬ (c = '\t' ∨ c = '\x0d' ∨ c = '\n'))

/-- The netloc: present only when the post-scheme part starts with `//`;
runs to the first `/`, `?` or `#`. -/
def netlocOf (rest : List Char) : List Char :=
  if ['/', '/'].isPrefixOf rest then
    (rest.drop 2).takeWhile (fun c => ¬ (c = '/' ∨ c = '?' ∨ c = '#'))
  else []

/-- The userinfo part of a netloc (before the last `@`), when present. -/
def userinfoOf (netloc : List Char) : Option (List Char) :=
  (rpartAt '@' netloc).map (fun x => x.1)

/-- The `username` component (first-colon split of the userinfo). -/
def netlocUsername (netloc : List Char) : Option String :=
  (userinfoOf netloc).map (fun ui => ⟨ui.takeWhile (fun c => c ≠ ':')⟩)

/-- The `password` component (present only when the userinfo has a colon). -/
def netlocPassword (netloc : List Char) : Option String :=
  (userinfoOf netloc).bind
    (fun ui => if ui.contains ':' then some ⟨afterFirst ':' ui⟩ else none)

/-- The hostinfo part of a netloc (after the last `@`). -/
def hostinfoOf (netloc : List Char) : List Char :=
  match rpartAt '@' netloc with
  | some x => x.2
  | none => netloc

/-- `_hostinfo` host/port split: bracketed split when a `[` is present,
first-colon split otherwise. -/
def hostPortSplit (hostinfo : List Char) : List Char × List Char :=
  if hostinfo.contains '[' then
    let bracketed := afterFirst '[' hostinfo
    (bracketed.takeWhile (fun c => c ≠ ']'),
     afterFirst ':' ((bracketed.dropWhile (fun c => c ≠ ']')).drop 1))
  else
    (hostinfo.takeWhile (fun c => c ≠ ':'), afterFirst ':' hostinfo)

/-- The normalised `hostname` component of a netloc. -/
def netlocHostname (netloc : List Char) : Option String :=
  let h := (hostPortSplit (hostinfoOf netloc)).1
  if h = [] then none else some ⟨hostnameNorm h⟩

/-- The validated `port` component of a netloc (`none` both when absent
and when reading `.port` would raise). -/
def netlocPort (netloc : List Char) : Option Nat :=
  let p := (hostPortSplit (hostinfoOf netloc)).2
  if p = [] then none else pyPortParse p

/-- The `Invalid IPv6 URL` check of `urlsplit`. -/
def bracketImbalanced (netloc : List Char) : Bool :=
  (netloc.contains '[' ∧ ¬ netloc.contains ']') ∨
  (netloc.contains ']' ∧ ¬ netloc.contains '[')

/-- `urllib.parse.urlparse`, modelled for scheme / netloc / username /
password / hostname / port.  `none` is the `ValueError` raised on a
bracket-imbalanced netloc; an uncastable or out-of-range port is folded
into `port = none` (reading `.port` raises, and the caller treats a
missing port and a raising port identically). -/
def urlsplitModel (url : String) : Option UrlParts :=
  let sp := splitScheme (urlFilter url)
  let netloc := netlocOf sp.2
  if bracketImbalanced netloc then none
  else
    some { scheme := ⟨sp.1⟩
           netloc := netloc
           username := netlocUsername netloc
           password := netlocPassword netloc
           hostname := netlocHostname netloc
           port := netlocPort netloc }

/-! ## ProxyConfig and parse_proxy_line -/

/-- `ProxyConfig` frozen dataclass. -/
structure ProxyConfig where
  scheme : String
  host : String
  port : Nat
  username : Option String := none
  password : Option String := none
  deriving Repr, DecidableEq

/-- The SOAX-style reordering step of `parse_proxy_line`: a line with a
space and no `@` is rewritten from `host:port auth` to `auth@host:port`. -/
def reorderValue (value : String) : List Char :=
  let v1 := value.data
  if v1.contains ' ' ∧ ¬ v1.contains '@' then
    (let sp := splitOnceWs v1; sp.2 ++ '@' :: sp.1)
  else v1

/-- The text-shape normalisation `parse_proxy_line` performs before URL
parsing: reorder `host:port username:password`, then default the scheme. -/
def proxyLineNormalize (value : String) : String :=
  let v2 := reorderValue value
  if ¬ hasSub (("://" : String).data) v2 then ⟨(("http://" : String).data) ++ v2⟩ else ⟨v2⟩

/-- Whether the (stripped) line resolves to a usable host and a usable
nonzero port under the normalisation and URL parsing the parser applies. -/
def lineHostPortOk (value : String) : Bool :=
  match urlsplitModel (proxyLineNormalize value) with
  | none => false
  | some p =>
    match p.hostname, p.port with
    | some _, some port => decide (port ≠ 0)
    | _, _ => false

/-- The explicit scheme carried by the (stripped) line, if any: `none`
when the line has no `://` at all, or when URL parsing of the reordered
line does not recognise a scheme component. -/
def lineExplicitScheme (value : String) : Option String :=
  let v2 := reorderValue value
  if ¬ hasSub (("://" : String).data) v2 then none
  else
    let s := (splitScheme (v2.filter (fun c => ¬ (c = '\t' ∨ c = '\x0d' ∨ c = '\n')))).1
    if s.isEmpty then none else some ⟨s⟩

/-- `parse_proxy_line`; `none` models the raised `ValueError`. -/
def parse_proxy_line (line : String) : Option ProxyConfig :=
  let value := pyStrip line
  if value.data = [] ∨ value.data.head? = some '#' then none
  else
    match urlsplitModel (proxyLineNormalize value) with
    | none => none
    | some p =>
      match p.hostname, p.port with
      | some h, some port =>
        if port = 0 then none
        else
          some { scheme := if p.scheme = "" then "http" else p.scheme
                 host := h
                 port := port
                 username := match p.username with
                   | some u => if u = "" then none else some (pyUnquote u)
                   | none => none
                 password := match p.password with
                   | some w => if w = "" then none else some (pyUnquote w)
                   | none => none }
      | _, _ => none

/-- The host and port a URL string resolves to under the same URL parser
the program uses (the observable the round-trip claim compares). -/
def urlHostPort (url : String) : Option (String × Nat) :=
  match urlsplitModel url with
  | none => none
  | some p =>
    match p.hostname, p.port with
    | some h, some port => some (h, port)
    | _, _ => none

/-- The literal host text and the port of a proxy line, written from the
spec's words: the host/port component of the (stripped, reordered,
scheme-defaulted) line, before any hostname normalisation is applied. -/
def lineRawHostPort (line : String) : Option (String × Nat) :=
  let nl := netlocOf (splitScheme (urlFilter (proxyLineNormalize (pyStrip line)))).2
  let hp := hostPortSplit (hostinfoOf nl)
  if hp.1 = [] then none
  else (pyPortParse hp.2).map (fun port => ((⟨hp.1⟩ : String), port))

/-! ## build_url -/

/-- `re.sub` for the two session patterns, which share the shape
`literal` followed by a nonempty greedy run of a character class:
replace every non-overlapping leftmost match by `repl`, scanning left to
right and resuming after each match.  Structural fuel; any fuel of at
least the input length is exact. -/
def subLitPlus (lit : List Char) (cls : Char → Bool) (repl : List Char) :
    Nat → List Char → List Char
  | 0, l => l
  | fuel+1, [] => []
  | fuel+1, c :: rest =>
      if lit.isPrefixOf (c :: rest) then
        let tail := (c :: rest).drop lit.length
        let tok := tail.takeWhile cls
        if tok.isEmpty then c :: subLitPlus lit cls repl fuel rest
        else repl ++ subLitPlus lit cls repl fuel (tail.drop tok.length)
      else c :: subLitPlus lit cls repl fuel rest

/-- Character class `[^-:]` of the `sessionid-` token pattern. -/
def sidTokChar (c : Char) : Bool := ¬ (c = '-' ∨ c = ':')

/-- `re.sub(r"sessionid-[^-:]+", f"sessionid-{session_id}", u)`. -/
def subSessionId (u : String) (sid : String) : String :=
  ⟨subLitPlus (("sessionid-" : String).data) sidTokChar
    ((("sessionid-" : String).data) ++ sid.data) (u.data.length + 1) u.data⟩

/-- `re.sub(r"sessionlength-\d+", f"sessionlength-{session_length}", u)`. -/
def subSessionLength (u : String) (n : Nat) : String :=
  ⟨subLitPlus (("sessionlength-" : String).data) Char.isDigit
    ((("sessionlength-" : String).data) ++ (natDec n).data) (u.data.length + 1) u.data⟩

/-- The safe set `'-._~'` passed to `quote` by `build_url`. -/
def buildUrlSafe : List Char := ['-', '.', '_', '~']

/-- `ProxyConfig.build_url(session_id, session_length)`.  `session_id`
and `session_length` are falsy when absent, empty, or zero, exactly as
in the Python `if session_id and username` guards. -/
def ProxyConfig.build_url (cfg : ProxyConfig) (session_id : Option String := none)
    (session_length : Option Nat := none) : String :=
  let u0 := cfg.username.getD ""
  let u1 := match session_id with
    | some sid =>
        if sid ≠ "" ∧ u0 ≠ "" then
          if hasSub (("sessionid-" : String).data) u0.data then subSessionId u0 sid
          else if hasSub (("package-" : String).data) u0.data then
            u0 ++ "-sessionid-" ++ sid
          else u0
        else u0
    | none => u0
  let u2 := match session_length with
    | some n =>
        if n ≠ 0 ∧ u1 ≠ "" then
          if hasSub (("sessionlength-" : String).data) u1.data then subSessionLength u1 n
          else if hasSub (("sessionid-" : String).data) u1.data then
            u1 ++ "-sessionlength-" ++ natDec n
          else u1
        else u1
    | none => u1
  let pw := cfg.password.getD ""
  let auth :=
    if u2 ≠ "" ∧ pw ≠ "" then
      pyQuote buildUrlSafe u2 ++ ":" ++ pyQuote buildUrlSafe pw ++ "@"
    else if u2 ≠ "" then pyQuote buildUrlSafe u2 ++ "@"
    else ""
  cfg.scheme ++ "://" ++ auth ++ cfg.host ++ ":" ++ natDec cfg.port

/-! ## ProxyPool -/

/-- Lowercase-alphanumeric alphabet sampled by the session-id generator
(`string.ascii_lowercase + string.digits`). -/
def sessionAlphabet : List Char := ("abcdefghijklmnopqrstuvwxyz0123456789" : String).data

/-- The fresh session id generated per sticky call: the literal `"s"`
followed by twelve draws from `sessionAlphabet`.  The random generator is
passed explicitly as the sequence of draws it returns. -/
def mkSessionId (rng : Nat → Fin 36) : String :=
  ⟨'s' :: (List.range 12).map (fun i => sessionAlphabet.getD (rng i).val 'a')⟩

/-- `ProxyPool` state: the configured proxies, the optional session
length, the sticky flag and the cursor `_idx`.  The `asyncio.Lock`
makes each acquisition a single atomic step, which is what a pure
state-passing `next_proxy` models. -/
structure ProxyPool where
  proxies : List ProxyConfig
  session_length : Option Nat := none
  sticky : Bool := true
  idx : Nat := 0
  deriving Repr, DecidableEq

/-- `ProxyPool.next_proxy(request_key)`: returns the built proxy URL (or
`none` on an empty pool) together with the updated pool.  `request_key`
is accepted but unused; `rng` supplies the twelve random draws of this
call. -/
def ProxyPool.next_proxy (pool : ProxyPool) (request_key : String)
    (rng : Nat → Fin 36) : Option String × ProxyPool :=
  if pool.proxies.isEmpty then (none, pool)
  else
    let proxy := pool.proxies.getD (pool.idx % pool.proxies.length)
      { scheme := "", host := "", port := 0 }
    let session_id := if pool.sticky then some (mkSessionId rng) else none
    (some (proxy.build_url session_id pool.session_length),
     { pool with idx := pool.idx + 1 })

/-- The pool state after `n` successive acquisitions. -/
def ProxyPool.iterate (pool : ProxyPool) (key : String) (rng : Nat → Fin 36) : Nat → ProxyPool
  | 0 => pool
  | n+1 => ((ProxyPool.iterate pool key rng n).next_proxy key rng).2

/-- How many of the first `N` acquisitions resolve the proxy at index
`i` (the cursor of the pool state observed by call `t`, reduced modulo
the pool size, is the index that call resolves). -/
def ProxyPool.selectionCount (pool : ProxyPool) (key : String) (rng : Nat → Fin 36)
    (N i : Nat) : Nat :=
  (List.range N).countP
    (fun t => decide ((ProxyPool.iterate pool key rng t).idx % pool.proxies.length = i))

/-! ## Python values

One value type serves for everything the scraper passes around as
Python objects: JSON data, extracted place records, and the dictionaries
the extractors build.  Python floats are modelled as exact rationals. -/

inductive PyVal where
  | none : PyVal
  | boolean : Bool → PyVal
  | int : Int → PyVal
  | float : Rat → PyVal
  | str : String → PyVal
  | list : List PyVal → PyVal
  | dict : List (String × PyVal) → PyVal

/-- First-match key lookup in a dict's entry list. -/
def lookupKey : List (String × PyVal) → String → Option PyVal
  | [], _ => Option.none
  | (k, v) :: rest, key => if k = key then some v else lookupKey rest key

/-- `d.get(key)` on a dict value; `none` on non-dicts. -/
def dictLookup (p : PyVal) (key : String) : Option PyVal :=
  match p with
  | .dict kvs => lookupKey kvs key
  | _ => Option.none

/-! ## extract_places_from_html -/

/-- The literal head of `re.findall(r'href="(/maps/place/[^"]+)"', html)`:
`href="` followed by the group's literal prefix. -/
def litHref : List Char := ("href=\"/maps/place/" : String).data

/-- `re.findall(r'href="(/maps/place/[^"]+)"', ...)`: left-to-right
non-overlapping matches; the captured group is `/maps/place/` plus a
nonempty run of non-quote characters closed by a quote. -/
def findPlaceHrefs : Nat → List Char → List (List Char)
  | 0, _ => []
  | _+1, [] => []
  | fuel+1, c :: rest =>
      if litHref.isPrefixOf (c :: rest) then
        let tail := (c :: rest).drop litHref.length
        let run := tail.takeWhile (fun d => ¬ d = '"')
        let after := tail.drop run.length
        if ¬ run = [] ∧ after.head? = some '"' then
          ((("/maps/place/" : String).data) ++ run) :: findPlaceHrefs fuel (after.drop 1)
        else findPlaceHrefs fuel rest
      else findPlaceHrefs fuel rest

/-- `html.unescape`, modelled for the numeric-free core entity set
(`&amp;` `&lt;` `&gt;` `&quot;` `&#39;`); other ampersands pass through
unchanged.  Exact for inputs whose entities stay in this set. -/
def htmlUnescape : Nat → List Char → List Char
  | 0, l => l
  | _+1, [] => []
  | fuel+1, '&' :: rest =>
      if (("amp;" : String).data).isPrefixOf rest then
        '&' :: htmlUnescape fuel (rest.drop 4)
      else if (("lt;" : String).data).isPrefixOf rest then
        '<' :: htmlUnescape fuel (rest.drop 3)
      else if (("gt;" : String).data).isPrefixOf rest then
        '>' :: htmlUnescape fuel (rest.drop 3)
      else if (("quot;" : String).data).isPrefixOf rest then
        '"' :: htmlUnescape fuel (rest.drop 5)
      else if (("#39;" : String).data).isPrefixOf rest then
        Char.ofNat 39 :: htmlUnescape fuel (rest.drop 4)
      else '&' :: htmlUnescape fuel rest
  | fuel+1, c :: rest => c :: htmlUnescape fuel rest

/-- The processed href: `html.unescape` then `urllib.parse.unquote`. -/
def hrefProc (raw : List Char) : List Char :=
  pyUnquoteAux (htmlUnescape (raw.length + 1) raw)

/-- One attempt of `re.search(r"0x[a-fA-F0-9]+:0x[a-fA-F0-9]+", ...)` at
the head of the list; hex runs are maximal (the pattern admits no
backtracking: `:` is not a hex digit). -/
def dataIdAt (l : List Char) : Option (List Char) :=
  match l with
  | '0' :: 'x' :: rest =>
    let h1 := rest.takeWhile isHexDigit
    if h1 = [] then Option.none
    else
      match rest.drop h1.length with
      | ':' :: '0' :: 'x' :: rest2 =>
        let h2 := rest2.takeWhile isHexDigit
        if h2 = [] then Option.none
        else some ('0' :: 'x' :: h1 ++ ':' :: '0' :: 'x' :: h2)
      | _ => Option.none
  | _ => Option.none

/-- Leftmost match of the data-id pattern. -/
def searchDataId : Nat → List Char → Option (List Char)
  | 0, _ => Option.none
  | _+1, [] => Option.none
  | fuel+1, c :: rest =>
    match dataIdAt (c :: rest) with
    | some m => some m
    | Option.none => searchDataId fuel rest

/-- One alternative of the place-id pattern at the head: the given
prefix, then `ChI`, then a nonempty maximal run of `[a-zA-Z0-9_-]`. -/
def pidTry (p : List Char) (l : List Char) : Option (List Char) :=
  if p.isPrefixOf l then
    let after := l.drop p.length
    if (("ChI" : String).data).isPrefixOf after then
      let run := (after.drop 3).takeWhile (fun c => c.isAlphanum ∨ c = '_' ∨ c = '-')
      if run = [] then Option.none else some ((("ChI" : String).data) ++ run)
    else Option.none
  else Option.none

/-- Leftmost match of
`(?:!1s|place_id:|ludocid\x3d|ludocid%3D|ludocid=)(ChI[a-zA-Z0-9_-]+)`,
alternatives tried in order at each position; yields group 1. -/
def searchPlaceId : Nat → List Char → Option (List Char)
  | 0, _ => Option.none
  | _+1, [] => Option.none
  | fuel+1, c :: rest =>
    match pidTry (("!1s" : String).data) (c :: rest) with
    | some m => some m
    | Option.none =>
      match pidTry (("place_id:" : String).data) (c :: rest) with
      | some m => some m
      | Option.none =>
        match pidTry (("ludocid\\x3d" : String).data) (c :: rest) with
        | some m => some m
        | Option.none =>
          match pidTry (("ludocid%3D" : String).data) (c :: rest) with
          | some m => some m
          | Option.none =>
            match pidTry (("ludocid=" : String).data) (c :: rest) with
            | some m => some m
            | Option.none => searchPlaceId fuel rest

/-- The `(?:\.\d+)+` tail of a coordinate: one or more maximal groups of
a dot followed by a nonempty digit run; returns the matched text and the
rest. -/
def dotRuns : Nat → List Char → Option (List Char × List Char)
  | 0, _ => Option.none
  | fuel+1, l =>
    match l with
    | '.' :: r =>
      let d := r.takeWhile Char.isDigit
      if d = [] then Option.none
      else
        match dotRuns fuel (r.drop d.length) with
        | some (m2, rest2) => some ('.' :: (d ++ m2), rest2)
        | Option.none => some ('.' :: d, r.drop d.length)
    | _ => Option.none

/-- `-?\d+(?:\.\d+)+` at the head: optional sign, nonempty digit run,
then at least one dot group. -/
def numAt (l : List Char) : Option (List Char × List Char) :=
  let sb : List Char × List Char := match l with
    | '-' :: r => (['-'], r)
    | _ => ([], l)
  let ip := sb.2.takeWhile Char.isDigit
  if ip = [] then Option.none
  else
    match dotRuns (sb.2.length + 1) (sb.2.drop ip.length) with
    | some (m2, rest2) => some (sb.1 ++ ip ++ m2, rest2)
    | Option.none => Option.none

/-- `!3d(num)!4d(num)` at the head; yields the two groups. -/
def latlngAt (l : List Char) : Option (List Char × List Char) :=
  if (("!3d" : String).data).isPrefixOf l then
    match numAt (l.drop 3) with
    | some (g1, r1) =>
      if (("!4d" : String).data).isPrefixOf r1 then
        match numAt (r1.drop 3) with
        | some (g2, _) => some (g1, g2)
        | Option.none => Option.none
      else Option.none
    | Option.none => Option.none
  else Option.none

/-- Leftmost match of the coordinate pattern. -/
def searchLatLng : Nat → List Char → Option (List Char × List Char)
  | 0, _ => Option.none
  | _+1, [] => Option.none
  | fuel+1, c :: rest =>
    match latlngAt (c :: rest) with
    | some m => some m
    | Option.none => searchLatLng fuel rest

/-- Leftmost match of `/maps/place/([^/]+)`; yields group 1. -/
def searchTitle : Nat → List Char → Option (List Char)
  | 0, _ => Option.none
  | _+1, [] => Option.none
  | fuel+1, c :: rest =>
    if (("/maps/place/" : String).data).isPrefixOf (c :: rest) then
      let after := (c :: rest).drop 12
      let run := after.takeWhile (fun d => ¬ d = '/')
      if run = [] then searchTitle fuel rest else some run
    else searchTitle fuel rest

/-- Hexadecimal value of a digit list. -/
def hexsVal (l : List Char) : Nat := l.foldl (fun a c => a * 16 + hexVal c) 0

/-- `int(s, 16)` on a (possibly `0x`-prefixed) hex numeral. -/
def pyIntHex (l : List Char) : Nat :=
  hexsVal (if (("0x" : String).data).isPrefixOf l then l.drop 2 else l)

/-- `float()` on text of the shape `-?\d+(\.\d+)+` the coordinate regex
produces: succeeds exactly when there is a single fractional part
(`float("1.2.3")` raises), yielding the exact rational value. -/
def pyFloatNum (l : List Char) : Option Rat :=
  let sb : Bool × List Char := match l with
    | '-' :: r => (true, r)
    | _ => (false, l)
  let ip := sb.2.takeWhile Char.isDigit
  match sb.2.drop ip.length with
  | '.' :: r2 =>
    let fp := r2.takeWhile Char.isDigit
    if r2.drop fp.length = [] ∧ ¬ fp = [] ∧ ¬ ip = [] then
      let v : Rat := (digitsVal ip : Rat) + (digitsVal fp : Rat) / ((10 : Rat) ^ fp.length)
      some (if sb.1 then -v else v)
    else Option.none
  | _ => Option.none

/-- The dedupe key of a processed href:
`(place_id or "") + "|" + (data_id or href)`. -/
def hrefKey (href : List Char) : List Char :=
  ((searchPlaceId (href.length + 1) href).getD []) ++
    '|' :: (match searchDataId (href.length + 1) href with
      | some m => m
      | Option.none => href)

/-- The place dictionary built for one href (source lines 497..507). -/
def placeDictOf (title : List Char) (pid did dcid : Option (List Char))
    (href : List Char) (la lo : Option Rat) : PyVal :=
  PyVal.dict
    [("title", if title = [] then PyVal.none else PyVal.str ⟨title⟩),
     ("place_id", match pid with | some m => PyVal.str ⟨m⟩ | Option.none => PyVal.none),
     ("data_id", match did with | some m => PyVal.str ⟨m⟩ | Option.none => PyVal.none),
     ("data_cid", match dcid with | some m => PyVal.str ⟨m⟩ | Option.none => PyVal.none),
     ("maps_url", PyVal.str ⟨(("https://www.google.com" : String).data) ++ href⟩),
     ("gps_coordinates", PyVal.dict
       [("latitude", match la with | some q => PyVal.float q | Option.none => PyVal.none),
        ("longitude", match lo with | some q => PyVal.float q | Option.none => PyVal.none)])]

/-- The per-href loop of `extract_places_from_html`, carrying the `seen`
key set; `none` models the `ValueError` a multi-dot coordinate raises
out of `float`. -/
def extractGo : List (List Char) → List (List Char) → Option (List PyVal)
  | _, [] => some []
  | seen, raw :: rest =>
    let href := hrefProc raw
    let key := hrefKey href
    if key ∈ seen then extractGo seen rest
    else
      let title := match searchTitle (href.length + 1) href with
        | some g => (pyUnquotePlus ⟨g⟩).data.map (fun c => if c = '+' then ' ' else c)
        | Option.none => []
      let pid := searchPlaceId (href.length + 1) href
      let did := searchDataId (href.length + 1) href
      let dcid := match did with
        | some m => some ((natDec (pyIntHex (afterFirst ':' m))).data)
        | Option.none => Option.none
      let gps : Option (Option Rat × Option Rat) :=
        match searchLatLng (href.length + 1) href with
        | some (g1, g2) =>
          (match pyFloatNum g1, pyFloatNum g2 with
            | some la, some lo => some (some la, some lo)
            | _, _ => Option.none)
        | Option.none => some (Option.none, Option.none)
      match gps with
      | Option.none => Option.none
      | some (la, lo) =>
        (extractGo (key :: seen) rest).map
          (fun tl => placeDictOf title pid did dcid href la lo :: tl)

/-- `extract_places_from_html` (source lines 459..510). -/
def extract_places_from_html (html_content : String) : Option (List PyVal) :=
  extractGo [] (findPlaceHrefs (html_content.data.length + 1) html_content.data)

/-- The number of distinct dedupe keys (first occurrence wins) among a
list of raw hrefs, relative to an already-seen key set — the count the
dedupe invariant compares the output length against. -/
def countNewKeys : List (List Char) → List (List Char) → Nat
  | _, [] => 0
  | seen, raw :: rest =>
    let key := hrefKey (hrefProc raw)
    if key ∈ seen then countNewKeys seen rest
    else countNewKeys (key :: seen) rest + 1

/-! ## json.loads model

A recursive-descent JSON parser over `PyVal`.  Modelling notes: floats
are exact rationals; `NaN`/`Infinity` extensions are not modelled;
`\uXXXX` escapes decode to the code point without surrogate pairing;
duplicate object keys keep the last value at the first key's position,
as Python dicts do. -/

/-- JSON whitespace. -/
def jsonWs (c : Char) : Bool := c = ' ' ∨ c = '\t' ∨ c = '\n' ∨ c = '\x0d'

/-- Insert-or-overwrite, preserving the first occurrence's position. -/
def upsertKV : List (String × PyVal) → String → PyVal → List (String × PyVal)
  | [], k, v => [(k, v)]
  | (k2, v2) :: rest, k, v =>
    if k2 = k then (k2, v) :: rest else (k2, v2) :: upsertKV rest k v

/-- JSON string body after the opening quote: content and rest after the
closing quote. -/
def jsonString : Nat → List Char → Option (List Char × List Char)
  | 0, _ => Option.none
  | _+1, [] => Option.none
  | fuel+1, c :: r =>
    if c = '"' then some ([], r)
    else if c = '\\' then
      match r with
      | 'u' :: h1 :: h2 :: h3 :: h4 :: r2 =>
        if isHexDigit h1 ∧ isHexDigit h2 ∧ isHexDigit h3 ∧ isHexDigit h4 then
          (jsonString fuel r2).map
            (fun pr => (Char.ofNat (hexsVal [h1, h2, h3, h4]) :: pr.1, pr.2))
        else Option.none
      | e :: r2 =>
        match (match e with
          | '"' => some '"'
          | '\\' => some '\\'
          | '/' => some '/'
          | 'b' => some (Char.ofNat 8)
          | 'f' => some (Char.ofNat 12)
          | 'n' => some '\n'
          | 'r' => some (Char.ofNat 13)
          | 't' => some '\t'
          | _ => Option.none) with
        | some d => (jsonString fuel r2).map (fun pr => (d :: pr.1, pr.2))
        | Option.none => Option.none
      | [] => Option.none
    else if c.toNat < 32 then Option.none
    else (jsonString fuel r).map (fun pr => (c :: pr.1, pr.2))

/-- Optional fraction `(\.\d+)?`; a malformed fraction is left unread. -/
def jsonFracPart (l : List Char) : Option (List Char) × List Char :=
  match l with
  | '.' :: r =>
    let fp := r.takeWhile Char.isDigit
    if fp = [] then (Option.none, l) else (some fp, r.drop fp.length)
  | _ => (Option.none, l)

/-- Optional exponent `([eE][-+]?\d+)?`; a malformed exponent is left
unread. -/
def jsonExpPart (l : List Char) : Option (Bool × Nat) × List Char :=
  match l with
  | 'e' :: r =>
    (let sb : Bool × List Char := match r with
      | '+' :: r2 => (false, r2)
      | '-' :: r2 => (true, r2)
      | _ => (false, r)
    let ds := sb.2.takeWhile Char.isDigit
    if ds = [] then (Option.none, l) else (some (sb.1, digitsVal ds), sb.2.drop ds.length))
  | 'E' :: r =>
    (let sb : Bool × List Char := match r with
      | '+' :: r2 => (false, r2)
      | '-' :: r2 => (true, r2)
      | _ => (false, r)
    let ds := sb.2.takeWhile Char.isDigit
    if ds = [] then (Option.none, l) else (some (sb.1, digitsVal ds), sb.2.drop ds.length))
  | _ => (Option.none, l)

/-- JSON number `-?(0|[1-9]\d*)(\.\d+)?([eE][-+]?\d+)?`: an `int` when
bare, a `float` when a fraction or exponent is present. -/
def jsonNumber (l : List Char) : Option (PyVal × List Char) :=
  let sb : Bool × List Char := match l with
    | '-' :: r => (true, r)
    | _ => (false, l)
  let ipOpt : Option (Nat × List Char) := match sb.2 with
    | '0' :: r => some (0, r)
    | c :: r =>
      if c.isDigit then
        some (digitsVal ((c :: r).takeWhile Char.isDigit),
          (c :: r).drop (((c :: r).takeWhile Char.isDigit).length))
      else Option.none
    | [] => Option.none
  match ipOpt with
  | Option.none => Option.none
  | some (ip, r1) =>
    let fr := jsonFracPart r1
    let ex := jsonExpPart fr.2
    match fr.1, ex.1 with
    | Option.none, Option.none =>
      some ((if sb.1 then PyVal.int (-(ip : Int)) else PyVal.int (ip : Int)), r1)
    | _, _ =>
      let base : Rat := (ip : Rat) + (match fr.1 with
        | some fp => (digitsVal fp : Rat) / ((10 : Rat) ^ fp.length)
        | Option.none => 0)
      let scaled : Rat := match ex.1 with
        | some (eneg, e) =>
          if eneg then base / ((10 : Rat) ^ e) else base * ((10 : Rat) ^ e)
        | Option.none => base
      some ((if sb.1 then PyVal.float (-scaled) else PyVal.float scaled), ex.2)

mutual

/-- A JSON value with leading whitespace. -/
def jsonValue : Nat → List Char → Option (PyVal × List Char)
  | 0, _ => Option.none
  | fuel+1, l =>
    match l.dropWhile jsonWs with
    | 'n' :: 'u' :: 'l' :: 'l' :: r => some (PyVal.none, r)
    | 't' :: 'r' :: 'u' :: 'e' :: r => some (PyVal.boolean true, r)
    | 'f' :: 'a' :: 'l' :: 's' :: 'e' :: r => some (PyVal.boolean false, r)
    | '"' :: r => (jsonString fuel r).map (fun pr => (PyVal.str ⟨pr.1⟩, pr.2))
    | '[' :: r =>
      (match r.dropWhile jsonWs with
      | ']' :: r2 => some (PyVal.list [], r2)
      | _ => (jsonElems fuel r).map (fun pr => (PyVal.list pr.1, pr.2)))
    | '\x7b' :: r =>
      (match r.dropWhile jsonWs with
      | '\x7d' :: r2 => some (PyVal.dict [], r2)
      | _ => (jsonMembers fuel [] r).map (fun pr => (PyVal.dict pr.1, pr.2)))
    | l2 => jsonNumber l2

/-- Comma-separated array elements up to the closing bracket. -/
def jsonElems : Nat → List Char → Option (List PyVal × List Char)
  | 0, _ => Option.none
  | fuel+1, l =>
    match jsonValue fuel l with
    | Option.none => Option.none
    | some (v, r) =>
      match r.dropWhile jsonWs with
      | ',' :: r2 => (jsonElems fuel r2).map (fun pr => (v :: pr.1, pr.2))
      | ']' :: r2 => some ([v], r2)
      | _ => Option.none

/-- Comma-separated object members up to the closing brace. -/
def jsonMembers : Nat → List (String × PyVal) → List Char →
    Option (List (String × PyVal) × List Char)
  | 0, _, _ => Option.none
  | fuel+1, acc, l =>
    match l.dropWhile jsonWs with
    | '"' :: r =>
      (match jsonString fuel r with
      | Option.none => Option.none
      | some (k, r2) =>
        match r2.dropWhile jsonWs with
        | ':' :: r3 =>
          (match jsonValue fuel r3 with
          | Option.none => Option.none
          | some (v, r4) =>
            match r4.dropWhile jsonWs with
            | ',' :: r5 => jsonMembers fuel (upsertKV acc ⟨k⟩ v) r5
            | '\x7d' :: r5 => some (upsertKV acc ⟨k⟩ v, r5)
            | _ => Option.none)
        | _ => Option.none)
    | _ => Option.none

end

/-- `json.loads`: parse one value and require only whitespace after. -/
def jsonLoads (txt : List Char) : Option PyVal :=
  match jsonValue (4 * txt.length + 4) txt with
  | some (v, r) => if r.dropWhile jsonWs = [] then some v else Option.none
  | Option.none => Option.none

/-! ## parse_jsonld -/

/-- `str.strip()` on a character list. -/
def stripList (l : List Char) : List Char :=
  ((l.dropWhile pyIsWs).reverse.dropWhile pyIsWs).reverse

/-- Case-insensitive prefix test; the pattern is given lowercase. -/
def ciIsPrefixOf : List Char → List Char → Bool
  | [], _ => true
  | _ :: _, [] => false
  | a :: ps, b :: ls => a = Char.toLower b ∧ ciIsPrefixOf ps ls

/-- Case-insensitive substring test; the pattern is given lowercase. -/
def ciHasSub (pat : List Char) : List Char → Bool
  | [] => pat.isEmpty
  | c :: rest => ciIsPrefixOf pat (c :: rest) || ciHasSub pat rest

/-- The opening-tag part of
`<script[^>]+type="application/ld\+json"[^>]*>` at the head of the
list (case-insensitively): `<script`, a nonempty gap, the type literal,
all inside one `>`-free run closed by `>`.  Yields the rest after the
`>`. -/
def ldScriptHeadAt (l : List Char) : Option (List Char) :=
  if ciIsPrefixOf (("<script" : String).data) l then
    let after := l.drop 7
    let run := after.takeWhile (fun c => ¬ c = '>')
    if ciHasSub (("type=\"application/ld+json\"" : String).data) (run.drop 1) ∧
        (after.drop run.length).head? = some '>' then
      some (after.drop (run.length + 1))
    else Option.none
  else Option.none

/-- The lazy `(.*?)</script>` part: content up to the first
case-insensitive closing tag, and the rest after it. -/
def takeUntilCloseScript : Nat → List Char → Option (List Char × List Char)
  | 0, _ => Option.none
  | _+1, [] => Option.none
  | fuel+1, c :: rest =>
    if ciIsPrefixOf (("</script>" : String).data) (c :: rest) then
      some ([], (c :: rest).drop 9)
    else
      match takeUntilCloseScript fuel rest with
      | some (content, rest2) => some (c :: content, rest2)
      | Option.none => Option.none

/-- `re.findall` of the JSON-LD script pattern: the captured block
contents, in document order. -/
def findLdBlocks : Nat → List Char → List (List Char)
  | 0, _ => []
  | _+1, [] => []
  | fuel+1, c :: rest =>
    match ldScriptHeadAt (c :: rest) with
    | some afterGt =>
      (match takeUntilCloseScript (afterGt.length + 1) afterGt with
      | some (content, rest2) => content :: findLdBlocks fuel rest2
      | Option.none => findLdBlocks fuel rest)
    | Option.none => findLdBlocks fuel rest

/-- The test `isinstance(item, dict) and item.get("@type") in
\x7b"LocalBusiness", "Place", "Restaurant", "Store"\x7d`.  The set
membership hashes the `@type` value, so a list- or dict-valued `@type`
raises `TypeError` — modelled as `none`; this test sits outside the
`try`, which covers only `json.loads`.  Hashable non-string values
(`None`, booleans, numbers) are simply not in the set. -/
def bizTypeTest (p : PyVal) : Option Bool :=
  match p with
  | .dict kvs =>
    (match lookupKey kvs "@type" with
    | some (.list _) => Option.none
    | some (.dict _) => Option.none
    | some (.str s) =>
      some (decide (s = "LocalBusiness" ∨ s = "Place" ∨ s = "Restaurant" ∨ s = "Store"))
    | _ => some false)
  | _ => some false

/-- The list loop of `parse_jsonld`: the first dict element whose
`@type` matches, raising (`none`) at the first dict element with an
unhashable `@type` reached before a match. -/
def firstTypeItem : List PyVal → Option (Option PyVal)
  | [] => some Option.none
  | item :: rest =>
    match bizTypeTest item with
    | Option.none => Option.none
    | some true => some (some item)
    | some false => firstTypeItem rest

/-- The per-block loop of `parse_jsonld`, carrying `best` (the dict
`best` starts as `\x7b\x7d`; `not best` is Python truthiness, i.e.
emptiness).  The outer `none` is an uncaught `TypeError` escaping the
function. -/
def parse_jsonld_go : List (String × PyVal) → List (List Char) → Option PyVal
  | best, [] => some (PyVal.dict best)
  | best, block :: rest =>
    let txt := stripList (htmlUnescape (block.length + 1) block)
    if txt = [] then parse_jsonld_go best rest
    else
      match jsonLoads txt with
      | Option.none => parse_jsonld_go best rest
      | some data =>
        match data with
        | .list items =>
          (match firstTypeItem items with
          | Option.none => Option.none
          | some (some item) => some item
          | some Option.none => parse_jsonld_go best rest)
        | .dict kvs =>
          (match bizTypeTest (.dict kvs) with
          | Option.none => Option.none
          | some true => some (.dict kvs)
          | some false =>
            if best.isEmpty then parse_jsonld_go kvs rest
            else parse_jsonld_go best rest)
        | _ => parse_jsonld_go best rest

/-- `parse_jsonld` (source lines 743..770); `none` models the uncaught
`TypeError` an unhashable `@type` raises. -/
def parse_jsonld (place_html : String) : Option PyVal :=
  parse_jsonld_go [] (findLdBlocks (place_html.data.length + 1) place_html.data)

/-- The parsed value of one block, written from the spec's words: the
block unescaped and stripped, `none` when empty or invalid JSON. -/
def blockValue (block : List Char) : Option PyVal :=
  let txt := stripList (htmlUnescape (block.length + 1) block)
  if txt = [] then Option.none else jsonLoads txt

/-- The type examination of one parsed block value: `none` = a
`TypeError` fires, `some none` = no hit, `some (some v)` = `v` is
returned. -/
def typeHitOf (v : PyVal) : Option (Option PyVal) :=
  match v with
  | .list items => firstTypeItem items
  | .dict kvs =>
    (match bizTypeTest (.dict kvs) with
    | Option.none => Option.none
    | some true => some (some (PyVal.dict kvs))
    | some false => some Option.none)
  | _ => some Option.none

/-- Spec-side selection: scan the blocks in document order for the
first type hit; `none` when a `TypeError` fires before any hit,
`some none` when the scan completes without a hit. -/
def specFirstTypeHit : List (List Char) → Option (Option PyVal)
  | [] => some Option.none
  | b :: rest =>
    match blockValue b with
    | Option.none => specFirstTypeHit rest
    | some v =>
      match typeHitOf v with
      | Option.none => Option.none
      | some (some hit) => some (some hit)
      | some Option.none => specFirstTypeHit rest

/-- Spec-side fallback, as the counterexample forces it to read: the
first NON-EMPTY syntactically valid JSON object. -/
def specFirstNonemptyObj : List (List Char) → Option (List (String × PyVal))
  | [] => Option.none
  | b :: rest =>
    match blockValue b with
    | some (.dict (kv :: kvs)) => some (kv :: kvs)
    | _ => specFirstNonemptyObj rest

/-! ## extract_from_google_data and extract_json_data -/

/-- The record a dict node emits: gated on any of the four keys, titled
by `name` when present (it overwrites `title`), dropped when empty. -/
def placeOfDict (kvs : List (String × PyVal)) : Option PyVal :=
  if (lookupKey kvs "title").isSome ∨ (lookupKey kvs "name").isSome ∨
      (lookupKey kvs "place_id").isSome ∨ (lookupKey kvs "fsq_id").isSome then
    let p1 : List (String × PyVal) := match lookupKey kvs "title" with
      | some v => [("title", v)]
      | Option.none => []
    let p2 : List (String × PyVal) := match lookupKey kvs "name" with
      | some v => upsertKV p1 "title" v
      | Option.none => p1
    match p2 with
    | [] => Option.none
    | _ => some (PyVal.dict p2)
  else Option.none

/-- `extract_recursive`: the fuel is `11 - depth`, so fuel `0` is the
`depth > 10` cutoff; records come out in pre-order. -/
def extractRec : Nat → PyVal → List PyVal
  | 0, _ => []
  | fuel+1, PyVal.list items => (items.map (fun item => extractRec fuel item)).flatten
  | fuel+1, PyVal.dict kvs =>
    (match placeOfDict kvs with
     | some p => [p]
     | Option.none => []) ++ (kvs.map (fun kv => extractRec fuel kv.2)).flatten
  | _+1, _ => []

/-- `extract_from_google_data` (source lines 538..564). -/
def extract_from_google_data (data : PyVal) : List PyVal := extractRec 11 data

/-- Lazy `.+?\]` with a tail test: the shortest nonempty body whose
closing bracket satisfies the tail; yields the body and the rest after
the bracket. -/
def lazyClose (tailOk : List Char → Bool) : Nat → List Char → List Char →
    Option (List Char × List Char)
  | 0, _, _ => Option.none
  | _+1, _, [] => Option.none
  | fuel+1, acc, c :: rest =>
      if c = ']' ∧ ¬ acc = [] ∧ tailOk rest then some (acc.reverse, rest)
      else lazyClose tailOk fuel (c :: acc) rest

/-- `AF_initDataCallback\s*\(\s*\{` at the head; yields the rest after
the brace. -/
def afdHeadAt (l : List Char) : Option (List Char) :=
  if (("AF_initDataCallback" : String).data).isPrefixOf l then
    match (l.drop 19).dropWhile pyIsWs with
    | '(' :: l2 =>
      (match l2.dropWhile pyIsWs with
      | '\x7b' :: l4 => some l4
      | _ => Option.none)
    | _ => Option.none
  else Option.none

/-- `data\s*:\s*function\s*\(\s*\)\s*\{\s*return\s*` at the head;
yields the rest at the group. -/
def afdCont1 (l : List Char) : Option (List Char) :=
  if (("data" : String).data).isPrefixOf l then
    match (l.drop 4).dropWhile pyIsWs with
    | ':' :: l2 =>
      (let l3 := l2.dropWhile pyIsWs
      if (("function" : String).data).isPrefixOf l3 then
        match (l3.drop 8).dropWhile pyIsWs with
        | '(' :: l5 =>
          (match l5.dropWhile pyIsWs with
          | ')' :: l7 =>
            (match l7.dropWhile pyIsWs with
            | '\x7b' :: l9 =>
              (let l10 := l9.dropWhile pyIsWs
              if (("return" : String).data).isPrefixOf l10 then
                some ((l10.drop 6).dropWhile pyIsWs)
              else Option.none)
            | _ => Option.none)
          | _ => Option.none)
        | _ => Option.none
      else Option.none)
    | _ => Option.none
  else Option.none

/-- `data\s*:\s*` at the head; yields the rest at the group. -/
def afdCont2 (l : List Char) : Option (List Char) :=
  if (("data" : String).data).isPrefixOf l then
    match (l.drop 4).dropWhile pyIsWs with
    | ':' :: l2 => some (l2.dropWhile pyIsWs)
    | _ => Option.none
  else Option.none

/-- The group part `(\[.+?\])` with a tail test; yields the bracketed
group text and the rest after the closing bracket. -/
def groupAt (tailOk : List Char → Bool) (l : List Char) :
    Option (List Char × List Char) :=
  match l with
  | '[' :: r =>
    (match lazyClose tailOk (r.length + 1) [] r with
    | some (body, rest) => some ('[' :: body ++ [']'], rest)
    | Option.none => Option.none)
  | _ => Option.none

/-- The greedy `[^\x7d]*` backtracking: scan the brace-free run for the
LAST position where the continuation and the group both match. -/
def lastFullIn (cont : List Char → Option (List Char))
    (tailOk : List Char → Bool) :
    Nat → List Char → Option (List Char × List Char) → Option (List Char × List Char)
  | 0, _, best => best
  | fuel+1, l, best =>
    let best2 := match (cont l).bind (groupAt tailOk) with
      | some x => some x
      | Option.none => best
    match l with
    | [] => best2
    | c :: rest => if c = '\x7d' then best2 else lastFullIn cont tailOk fuel rest best2

/-- One attempt of the first `AF_initDataCallback` pattern at the head;
yields the group and the resume point (after the trailing brace). -/
def afdP1At (l : List Char) : Option (List Char × List Char) :=
  match afdHeadAt l with
  | Option.none => Option.none
  | some l4 =>
    match lastFullIn afdCont1
        (fun rest => (rest.dropWhile pyIsWs).head? = some '\x7d')
        (l4.length + 1) l4 Option.none with
    | some (g, rest) => some (g, ((rest.dropWhile pyIsWs).drop 1))
    | Option.none => Option.none

/-- One attempt of the second `AF_initDataCallback` pattern at the head. -/
def afdP2At (l : List Char) : Option (List Char × List Char) :=
  match afdHeadAt l with
  | Option.none => Option.none
  | some l4 =>
    match lastFullIn afdCont2 (fun _ => true) (l4.length + 1) l4 Option.none with
    | some (g, rest) => some (g, rest)
    | Option.none => Option.none

/-- One attempt of the `window._APP_INITIALIZATION_STATE_` pattern at
the head; the match ends at the semicolon. -/
def appStateAt (l : List Char) : Option (List Char × List Char) :=
  if (("window._APP_INITIALIZATION_STATE_" : String).data).isPrefixOf l then
    match (l.drop ("window._APP_INITIALIZATION_STATE_" : String).data.length).dropWhile
        pyIsWs with
    | '=' :: l2 =>
      (match groupAt (fun rest => rest.head? = some ';') (l2.dropWhile pyIsWs) with
      | some (g, rest) => some (g, rest.drop 1)
      | Option.none => Option.none)
    | _ => Option.none
  else Option.none

/-- `re.findall` for one pattern attempt function. -/
def findAllPat (att : List Char → Option (List Char × List Char)) :
    Nat → List Char → List (List Char)
  | 0, _ => []
  | _+1, [] => []
  | fuel+1, c :: rest =>
    match att (c :: rest) with
    | some (g, resume) => g :: findAllPat att fuel resume
    | Option.none => findAllPat att fuel rest

/-- `extract_json_data` (source lines 513..535): all three patterns over
the whole text in order, each match JSON-parsed and walked; parse
failures are skipped. -/
def extract_json_data (html_content : String) : List PyVal :=
  let t := html_content.data
  let groups := findAllPat afdP1At (t.length + 1) t ++
    findAllPat afdP2At (t.length + 1) t ++
    findAllPat appStateAt (t.length + 1) t
  (groups.map (fun g =>
    match jsonLoads g with
    | some data => extract_from_google_data data
    | Option.none => [])).flatten

/-! ## scrape_place_detail

The `try` body binds the value returned by `fetch_page_with_playwright`
to `html_content` WITHOUT unpacking it.  That coroutine is declared
`-> tuple[str, Page]` and ends with `return content, page`, so
`html_content` is the two-element tuple `(content, page)` — contrast
`scrape_search_results`, which unpacks `html_content, page = await
fetch_page_with_playwright(...)`.  We model the tuple as a two-element
`PyVal.list` (`fetchResult`) and the `try` body as an `Option`-valued
core in which every statement that can raise short-circuits to `none`:
`parse_jsonld` applied to a non-string raises `TypeError` in
`re.findall`, and likewise the `float`/`int` coercions, `quote` on a
non-string data id, `.get` on a non-dict gps value and `.split` on a
non-string dayOfWeek.  The wrapper turns `none` into the seed, as the
`except Exception: return seed` does.  `str()` of containers and the
decimal rendering of floats are placeholders (no claim depends on
them). -/

/-- Python truthiness of a value. -/
def pyTruthy (v : PyVal) : Bool :=
  match v with
  | .none => false
  | .boolean b => b
  | .int n => ¬ n = 0
  | .float q => ¬ q = 0
  | .str s => ¬ s = ""
  | .list [] => false
  | .list (_ :: _) => true
  | .dict [] => false
  | .dict (_ :: _) => true

/-- Decimal rendering of an integer. -/
def intDec (n : Int) : String :=
  if n < 0 then "-" ++ natDec n.natAbs else natDec n.natAbs

/-- `str()` of a value (placeholder rendering for floats and
containers). -/
def pyStr (v : PyVal) : String :=
  match v with
  | .str s => s
  | .int n => intDec n
  | .boolean true => "True"
  | .boolean false => "False"
  | .none => "None"
  | .float q => intDec q.num ++ "/" ++ natDec q.den
  | .list _ => "[...]"
  | .dict _ => "\x7b...\x7d"

/-- Exponent tail of `float()` on a string. -/
def expCont (base : Rat) (r : List Char) : Option Rat :=
  let sb : Bool × List Char := match r with
    | '+' :: r2 => (false, r2)
    | '-' :: r2 => (true, r2)
    | _ => (false, r)
  let ds := sb.2.takeWhile Char.isDigit
  if ds = [] ∨ ¬ sb.2.drop ds.length = [] then Option.none
  else some (if sb.1 then base / ((10 : Rat) ^ digitsVal ds)
    else base * ((10 : Rat) ^ digitsVal ds))

/-- `float()` on a string: optional sign, digits with optional point
and fraction (at least one mantissa digit), optional exponent,
surrounding whitespace allowed (`inf`/`nan`/underscores not
modelled). -/
def pyFloatStr (l : List Char) : Option Rat :=
  let core := stripList l
  let sb : Bool × List Char := match core with
    | '-' :: r => (true, r)
    | '+' :: r => (false, r)
    | _ => (false, core)
  let ip := sb.2.takeWhile Char.isDigit
  let a1 := sb.2.drop ip.length
  let fr : List Char × List Char := match a1 with
    | '.' :: r => (r.takeWhile Char.isDigit, r.drop (r.takeWhile Char.isDigit).length)
    | _ => ([], a1)
  if ip = [] ∧ fr.1 = [] then Option.none
  else
    let base : Rat := (digitsVal ip : Rat) + (digitsVal fr.1 : Rat) / ((10 : Rat) ^ fr.1.length)
    let ex : Option Rat := match fr.2 with
      | [] => some base
      | 'e' :: r2 => expCont base r2
      | 'E' :: r2 => expCont base r2
      | _ => Option.none
    match ex with
    | some v => some (if sb.1 then -v else v)
    | Option.none => Option.none

/-- `int()` on a string: optional sign and digits, whitespace allowed. -/
def pyIntStr (l : List Char) : Option Int :=
  let core := stripList l
  let sb : Bool × List Char := match core with
    | '-' :: r => (true, r)
    | '+' :: r => (false, r)
    | _ => (false, core)
  let ds := sb.2.takeWhile Char.isDigit
  if ds = [] ∨ ¬ sb.2.drop ds.length = [] then Option.none
  else some (if sb.1 then -(digitsVal ds : Int) else (digitsVal ds : Int))

/-- `float()` on a value; `none` models the raised error. -/
def pyFloatOf (v : PyVal) : Option Rat :=
  match v with
  | .int n => some (n : Rat)
  | .float q => some q
  | .boolean b => some (if b then 1 else 0)
  | .str s => pyFloatStr s.data
  | _ => Option.none

/-- `int()` on a value (floats truncate toward zero); `none` models the
raised error. -/
def pyIntOf (v : PyVal) : Option Int :=
  match v with
  | .int n => some n
  | .float q => some (q.num.tdiv (q.den : Int))
  | .boolean b => some (if b then 1 else 0)
  | .str s => pyIntStr s.data
  | _ => Option.none

/-- `[a-z0-9]` class of the type-id substitution. -/
def isLowerNum (c : Char) : Bool := ('a' ≤ c ∧ c ≤ 'z') ∨ ('0' ≤ c ∧ c ≤ '9')

/-- `re.sub(r"[^a-z0-9]+", "_", ...)`: each maximal run of other
characters becomes one underscore. -/
def subNonAlnum : Nat → List Char → List Char
  | 0, l => l
  | _+1, [] => []
  | fuel+1, c :: rest =>
    if isLowerNum c then c :: subNonAlnum fuel rest
    else '_' :: subNonAlnum fuel (rest.dropWhile (fun d => ¬ isLowerNum d))

/-- `re.sub(r"[^a-z0-9]+", "_", t.lower()).strip("_")`. -/
def typeIdOf (t : List Char) : List Char :=
  let low := t.map Char.toLower
  let rep := subNonAlnum (low.length + 1) low
  ((rep.dropWhile (fun c => c = '_')).reverse.dropWhile (fun c => c = '_')).reverse

/-- `ratingValue` of a dict `aggregateRating`, else `None`. -/
def aggRating (jsonld : PyVal) : PyVal :=
  match dictLookup jsonld "aggregateRating" with
  | some (.dict akvs) => (lookupKey akvs "ratingValue").getD PyVal.none
  | _ => PyVal.none

/-- `reviewCount` of a dict `aggregateRating`, else `None`. -/
def aggReviews (jsonld : PyVal) : PyVal :=
  match dictLookup jsonld "aggregateRating" with
  | some (.dict akvs) => (lookupKey akvs "reviewCount").getD PyVal.none
  | _ => PyVal.none

/-- `seed.get("gps_coordinates", \x7b\x7d).get(...)`: `none` models the
attribute error `.get` raises on a non-dict value. -/
def gpsStep (seed : List (String × PyVal)) : Option (PyVal × PyVal) :=
  match lookupKey seed "gps_coordinates" with
  | some (.dict g) => some ((lookupKey g "latitude").getD PyVal.none,
      (lookupKey g "longitude").getD PyVal.none)
  | Option.none => some (PyVal.none, PyVal.none)
  | some _ => Option.none

/-- The operating-hours loop body; `none` models the error a non-string
`dayOfWeek` raises in `.split`. -/
def hoursLoop : List PyVal → List (String × PyVal) → Option (List (String × PyVal))
  | [], acc => some acc
  | item :: rest, acc =>
    match item with
    | .dict ikvs =>
      (match (match lookupKey ikvs "dayOfWeek" with
        | Option.none => some ("" : String)
        | some (.str s) => some (⟨(match rpartAt '/' s.data with
            | some pr => pr.2
            | Option.none => s.data).map Char.toLower⟩ : String)
        | some _ => Option.none) with
      | Option.none => Option.none
      | some day =>
        let opens := (lookupKey ikvs "opens").getD PyVal.none
        let closes := (lookupKey ikvs "closes").getD PyVal.none
        if ¬ day = "" ∧ pyTruthy opens = true ∧ pyTruthy closes = true then
          hoursLoop rest (upsertKV acc day (PyVal.str (pyStr opens ++
            (⟨[Char.ofNat 8211]⟩ : String) ++ pyStr closes)))
        else hoursLoop rest acc)
    | _ => hoursLoop rest acc

/-- The operating-hours step: `none` inside the option models a raise;
the inner option is the Python `operating_hours` (None unless the spec
is a list). -/
def hoursStep (jsonld : PyVal) : Option (Option (List (String × PyVal))) :=
  match dictLookup jsonld "openingHoursSpecification" with
  | some (.list items) => (hoursLoop items []).map some
  | _ => some Option.none

/-- The serpapi links step: `quote` on a truthy non-string data id
raises. -/
def linkStep (seed : List (String × PyVal)) : Option (PyVal × PyVal) :=
  let data_id := (lookupKey seed "data_id").getD PyVal.none
  if pyTruthy data_id = true then
    match data_id with
    | .str s => some
        (PyVal.str ("https://serpapi.com/search.json?data_id=" ++ pyQuote ['/'] s ++
          "&engine=google_maps_reviews&hl=en"),
         PyVal.str ("https://serpapi.com/search.json?data_id=" ++ pyQuote ['/'] s ++
          "&engine=google_maps_photos&hl=en"))
    | _ => Option.none
  else some (PyVal.none, PyVal.none)

/-- `float(rating) if rating else None`; `none` models the raise. -/
def ratingStep (jsonld : PyVal) : Option PyVal :=
  if pyTruthy (aggRating jsonld) = true then
    match pyFloatOf (aggRating jsonld) with
    | some q => some (PyVal.float q)
    | Option.none => Option.none
  else some PyVal.none

/-- `int(reviews) if reviews else None`; `none` models the raise. -/
def reviewsStep (jsonld : PyVal) : Option PyVal :=
  if pyTruthy (aggReviews jsonld) = true then
    match pyIntOf (aggReviews jsonld) with
    | some n => some (PyVal.int n)
    | Option.none => Option.none
  else some PyVal.none

/-- The `@type`-derived type list. -/
def typesOf (jsonld : PyVal) : List String :=
  match dictLookup jsonld "@type" with
  | some (.str s) => [s]
  | some (.list xs) =>
    (xs.filter (fun x => match x with
      | .str s => ¬ (s = "LocalBusiness" ∨ s = "Place")
      | _ => true)).map pyStr
  | _ => []

/-- The result dictionary (source lines 695..734), given the values of
the fallible steps. -/
def detailResult (seed : List (String × PyVal)) (jsonld : PyVal)
    (gps0 : PyVal × PyVal) (oh : Option (List (String × PyVal)))
    (links : PyVal × PyVal) (ratingv reviewsv : PyVal) : PyVal :=
  let geo : List (String × PyVal) := match dictLookup jsonld "geo" with
    | some (.dict g) => g
    | _ => []
  let lat := let gl := (lookupKey geo "latitude").getD PyVal.none
    if pyTruthy gl = true then gl else gps0.1
  let lng := let gl := (lookupKey geo "longitude").getD PyVal.none
    if pyTruthy gl = true then gl else gps0.2
  let types := typesOf jsonld
  let type_ids := (types.filter (fun t => ¬ t = "")).map
    (fun t => (⟨typeIdOf t.data⟩ : String))
  let address : PyVal := match dictLookup jsonld "address" with
    | some (.dict addr) =>
      PyVal.str (String.intercalate ", "
        ((([(lookupKey addr "streetAddress").getD PyVal.none,
            (lookupKey addr "addressLocality").getD PyVal.none,
            (lookupKey addr "addressRegion").getD PyVal.none,
            (lookupKey addr "postalCode").getD PyVal.none]).filter
              (fun v => pyTruthy v = true)).map pyStr))
    | _ => PyVal.none
  let place_id := (lookupKey seed "place_id").getD PyVal.none
  let title := let st := (lookupKey seed "title").getD PyVal.none
    if pyTruthy st = true then st else (dictLookup jsonld "name").getD PyVal.none
  PyVal.dict
    [("position", (lookupKey seed "position").getD PyVal.none),
     ("title", title),
     ("place_id", place_id),
     ("data_id", (lookupKey seed "data_id").getD PyVal.none),
     ("data_cid", (lookupKey seed "data_cid").getD PyVal.none),
     ("reviews_link", links.1),
     ("photos_link", links.2),
     ("gps_coordinates", PyVal.dict [("latitude", lat), ("longitude", lng)]),
     ("place_id_search",
       if pyTruthy place_id = true then
         PyVal.str
           ("https://serpapi.com/search.json?engine=google_maps&google_domain=google.com&hl=en&place_id=" ++
             pyStr place_id)
       else PyVal.none),
     ("provider_id", (lookupKey seed "provider_id").getD PyVal.none),
     ("rating", ratingv),
     ("reviews", reviewsv),
     ("price", (dictLookup jsonld "priceRange").getD PyVal.none),
     ("type", match types with
       | [] => PyVal.none
       | t :: _ => PyVal.str t),
     ("types", match types with
       | [] => PyVal.none
       | _ => PyVal.list (types.map PyVal.str)),
     ("type_id", match type_ids with
       | [] => PyVal.none
       | t :: _ => PyVal.str t),
     ("type_ids", match type_ids with
       | [] => PyVal.none
       | _ => PyVal.list (type_ids.map PyVal.str)),
     ("address", address),
     ("open_state", PyVal.none),
     ("hours", PyVal.none),
     ("operating_hours", match oh with
       | some (kv :: kvs) => PyVal.dict (kv :: kvs)
       | _ => PyVal.none),
     ("phone", (dictLookup jsonld "telephone").getD PyVal.none),
     ("website", (dictLookup jsonld "url").getD PyVal.none),
     ("extensions", PyVal.none),
     ("unsupported_extensions", PyVal.none),
     ("service_options", PyVal.none),
     ("order_online", PyVal.none),
     ("thumbnail", PyVal.none),
     ("serpapi_thumbnail", PyVal.none)]

/-! The `try` body of `scrape_place_detail` on a fetched page, with the
fallible steps in source order; `none` models a raised exception.

`html_content` is whatever line 628 bound: the source does NOT unpack
the `(content, page)` tuple `fetch_page_with_playwright` returns (line
368; contrast `scrape_search_results`, line 593), so on every
successful fetch `html_content` is that tuple, `parse_jsonld` hands it
to `re.findall`, and a `TypeError` aborts the body at its first
statement. -/

/-- `parse_jsonld` as called on an arbitrary bound value:
`re.findall` raises `TypeError` unless the argument is a string. -/
def parse_jsonld_on (v : PyVal) : Option PyVal :=
  match v with
  | .str s => parse_jsonld s
  | _ => Option.none

/-- The `(content, page)` tuple `fetch_page_with_playwright` returns
(source line 368), modelled as a two-element sequence value; the `Page`
object is an opaque placeholder.  All the enrichment body does with it
is pass it where a string is required. -/
def fetchResult (content : String) : PyVal :=
  PyVal.list [PyVal.str content, PyVal.none]

def scrape_place_detail_core (seed : List (String × PyVal)) (html_content : PyVal) :
    Option PyVal :=
  match parse_jsonld_on html_content with
  | Option.none => Option.none
  | some jsonld =>
    match gpsStep seed with
    | Option.none => Option.none
    | some gps0 =>
      match hoursStep jsonld with
      | Option.none => Option.none
      | some oh =>
        match linkStep seed with
        | Option.none => Option.none
        | some links =>
          match ratingStep jsonld with
          | Option.none => Option.none
          | some ratingv =>
            match reviewsStep jsonld with
            | Option.none => Option.none
            | some reviewsv =>
              some (detailResult seed jsonld gps0 oh links ratingv reviewsv)

/-- `scrape_place_detail` (source lines 613..740) on a successful page
fetch, `html_content` being the value line 628 binds: the seed comes
back unchanged when `maps_url` is falsy or any statement of the `try`
body raises. -/
def scrape_place_detail (seed : List (String × PyVal)) (html_content : PyVal) : PyVal :=
  if pyTruthy ((lookupKey seed "maps_url").getD PyVal.none) = true then
    match scrape_place_detail_core seed html_content with
    | some r => r
    | Option.none => PyVal.dict seed
  else PyVal.dict seed

/-! ## Supporting lemmas -/

theorem countP_range_mod (K i : Nat) (hK : 0 < K) (hi : i < K) (N : Nat) :
    (List.range N).countP (fun t => decide (t % K = i)) =
      N / K + if i < N % K then 1 else 0 := by
  induction N with
  | zero => simp
  | succ N ih =>
    rw [List.range_succ, List.countP_append, ih]
    have hr : N % K < K := Nat.mod_lt _ hK
    have hN : K * (N / K) + N % K = N := Nat.div_add_mod N K
    rcases eq_or_ne (N % K + 1) K with h | h
    · have h1 : K * (N / K + 1) = N + 1 := by
        calc K * (N / K + 1) = K * (N / K) + K := by rw [Nat.mul_succ]
          _ = K * (N / K) + (N % K + 1) := by rw [h]
          _ = N + 1 := by rw [← Nat.add_assoc, hN]
      rw [← h1, Nat.mul_mod_right, Nat.mul_div_cancel_left _ hK]
      simp only [List.countP_cons, List.countP_nil, Nat.zero_add]
      split_ifs <;> simp_all <;> omega
    · have hlt : N % K + 1 < K := Nat.lt_of_le_of_ne hr h
      have e : K * (N / K) + (N % K + 1) = N + 1 := by rw [← Nat.add_assoc, hN]
      have hmod : (N + 1) % K = N % K + 1 := by
        rw [← e, Nat.mul_add_mod, Nat.mod_eq_of_lt hlt]
      have hdiv : (N + 1) / K = N / K := by
        rw [← e, Nat.mul_add_div hK, Nat.div_eq_of_lt hlt, Nat.add_zero]
      rw [hmod, hdiv]
      simp only [List.countP_cons, List.countP_nil, Nat.zero_add]
      split_ifs <;> simp_all <;> omega

theorem iterate_state (pool : ProxyPool) (key : String) (rng : Nat → Fin 36)
    (h : pool.proxies ≠ []) (n : Nat) :
    (ProxyPool.iterate pool key rng n).proxies = pool.proxies ∧
    (ProxyPool.iterate pool key rng n).idx = pool.idx + n := by
  induction n with
  | zero => exact ⟨rfl, rfl⟩
  | succ n ih =>
    obtain ⟨hp, hi⟩ := ih
    have hne : ((ProxyPool.iterate pool key rng n).proxies).isEmpty = false := by
      rw [hp, List.isEmpty_eq_false]
      exact h
    constructor
    · show ((ProxyPool.iterate pool key rng n).next_proxy key rng).2.proxies = _
      simp [ProxyPool.next_proxy, hne, hp, h]
    · show ((ProxyPool.iterate pool key rng n).next_proxy key rng).2.idx = _
      simp [ProxyPool.next_proxy, hne, hi, h, Nat.add_assoc]

theorem next_proxy_nonempty (pool : ProxyPool) (key : String) (rng : Nat → Fin 36)
    (h : pool.proxies ≠ []) :
    pool.next_proxy key rng =
      (((pool.proxies[pool.idx % pool.proxies.length]?).map
          (fun p => p.build_url (if pool.sticky then some (mkSessionId rng) else none)
            pool.session_length)),
       { pool with idx := pool.idx + 1 }) := by
  have hne : (pool.proxies).isEmpty = false := by
    rw [List.isEmpty_eq_false]; exact h
  have hlt : pool.idx % pool.proxies.length < pool.proxies.length :=
    Nat.mod_lt _ (List.length_pos.mpr h)
  rw [ProxyPool.next_proxy]
  simp [hne, List.getD_eq_getElem?_getD, List.getElem?_eq_getElem hlt]

theorem sessionAlphabet_getD :
    ∀ (j : Fin 36), (sessionAlphabet.getD j.val 'a').isLower ∨ (sessionAlphabet.getD j.val 'a').isDigit := by
  decide

theorem hostnameNorm_length (h : List Char) : (hostnameNorm h).length = h.length := by
  rw [hostnameNorm, List.length_append, List.length_map, ← List.length_append,
    List.takeWhile_append_dropWhile]

theorem charToNat_ofNat {n : Nat} (h : n < 55296) : (Char.ofNat n).toNat = n := by
  have hv : n.isValidChar := Or.inl h
  rw [Char.ofNat, dif_pos hv]
  rfl

theorem char_eq_iff_toNat (c d : Char) : c = d ↔ c.toNat = d.toNat :=
  ⟨fun h => h ▸ rfl, fun h => Char.eq_of_val_eq (UInt32.toNat.inj h)⟩

theorem isUpper_iff (c : Char) : c.isUpper = true ↔ 65 ≤ c.toNat ∧ c.toNat ≤ 90 := by
  simp only [Char.isUpper, Bool.and_eq_true, decide_eq_true_eq, GE.ge, UInt32.le_def,
    BitVec.le_def]
  exact Iff.rfl

theorem isLower_iff (c : Char) : c.isLower = true ↔ 97 ≤ c.toNat ∧ c.toNat ≤ 122 := by
  simp only [Char.isLower, Bool.and_eq_true, decide_eq_true_eq, GE.ge, UInt32.le_def,
    BitVec.le_def]
  exact Iff.rfl

theorem isDigit_iff (c : Char) : c.isDigit = true ↔ 48 ≤ c.toNat ∧ c.toNat ≤ 57 := by
  simp only [Char.isDigit, Bool.and_eq_true, decide_eq_true_eq, GE.ge, UInt32.le_def,
    BitVec.le_def]
  exact Iff.rfl

theorem isAlpha_iff (c : Char) : c.isAlpha = true ↔
    (65 ≤ c.toNat ∧ c.toNat ≤ 90) ∨ (97 ≤ c.toNat ∧ c.toNat ≤ 122) := by
  rw [Char.isAlpha, Bool.or_eq_true, isUpper_iff, isLower_iff]

theorem isAlphanum_iff (c : Char) : c.isAlphanum = true ↔
    (65 ≤ c.toNat ∧ c.toNat ≤ 90) ∨ (97 ≤ c.toNat ∧ c.toNat ≤ 122) ∨
    (48 ≤ c.toNat ∧ c.toNat ≤ 57) := by
  rw [Char.isAlphanum, Bool.or_eq_true, isAlpha_iff, isDigit_iff]
  tauto

theorem isSchemeChar_iff (c : Char) : isSchemeChar c = true ↔
    (65 ≤ c.toNat ∧ c.toNat ≤ 90) ∨ (97 ≤ c.toNat ∧ c.toNat ≤ 122) ∨
    (48 ≤ c.toNat ∧ c.toNat ≤ 57) ∨ c.toNat = 43 ∨ c.toNat = 45 ∨ c.toNat = 46 := by
  simp only [isSchemeChar, decide_eq_true_eq, isAlphanum_iff, char_eq_iff_toNat]
  tauto

theorem quoteAlwaysSafe_iff (c : Char) : quoteAlwaysSafe c = true ↔
    (65 ≤ c.toNat ∧ c.toNat ≤ 90) ∨ (97 ≤ c.toNat ∧ c.toNat ≤ 122) ∨
    (48 ≤ c.toNat ∧ c.toNat ≤ 57) ∨ c.toNat = 95 ∨ c.toNat = 46 ∨
    c.toNat = 45 ∨ c.toNat = 126 := by
  simp only [quoteAlwaysSafe, decide_eq_true_eq, isAlphanum_iff, char_eq_iff_toNat]
  tauto

theorem toLower_toNat (c : Char) :
    (Char.toLower c).toNat =
      if 65 ≤ c.toNat ∧ c.toNat ≤ 90 then c.toNat + 32 else c.toNat := by
  rw [Char.toLower]
  by_cases h : 65 ≤ c.toNat ∧ c.toNat ≤ 90
  · rw [if_pos h, if_pos ⟨h.1, h.2⟩]
    exact charToNat_ofNat (by omega)
  · rw [if_neg h, if_neg h]

theorem toLower_idem (c : Char) : Char.toLower (Char.toLower c) = Char.toLower c := by
  rw [char_eq_iff_toNat, toLower_toNat, toLower_toNat]
  split_ifs <;> omega

/-- Characters that can neither terminate a netloc, act as an authority
separator, open or close a bracketed host, nor be removed by the URL
cleaner: the safety property the round-trip proof tracks. -/
def urlPlainChar (c : Char) : Bool :=
  ¬ (c = '@' ∨ c = '/' ∨ c = '?' ∨ c = '#' ∨ c = '[' ∨ c = ']' ∨
     c = '\t' ∨ c = '\x0d' ∨ c = '\n')

theorem urlPlainChar_iff (c : Char) : urlPlainChar c = true ↔
    ¬ (c.toNat = 64 ∨ c.toNat = 47 ∨ c.toNat = 63 ∨ c.toNat = 35 ∨ c.toNat = 91 ∨
       c.toNat = 93 ∨ c.toNat = 9 ∨ c.toNat = 13 ∨ c.toNat = 10) := by
  simp only [urlPlainChar, decide_eq_true_eq, char_eq_iff_toNat,
    show ('@' : Char).toNat = 64 from rfl, show ('/' : Char).toNat = 47 from rfl,
    show ('?' : Char).toNat = 63 from rfl, show ('#' : Char).toNat = 35 from rfl,
    show ('[' : Char).toNat = 91 from rfl, show (']' : Char).toNat = 93 from rfl,
    show ('\t' : Char).toNat = 9 from rfl, show ('\x0d' : Char).toNat = 13 from rfl,
    show ('\n' : Char).toNat = 10 from rfl]

theorem netlocOk_chars {safe : List Char} (hs : ∀ c ∈ safe, quoteAlwaysSafe c = true)
    (s : String) : ∀ c ∈ (pyQuote safe s).data, urlPlainChar c = true ∧ c ≠ ':' := by
  intro c hc
  have hnat : (65 ≤ c.toNat ∧ c.toNat ≤ 90) ∨ (97 ≤ c.toNat ∧ c.toNat ≤ 122) ∨
      (48 ≤ c.toNat ∧ c.toNat ≤ 57) ∨ c.toNat = 95 ∨ c.toNat = 46 ∨ c.toNat = 45 ∨
      c.toNat = 126 ∨ c.toNat = 37 := by
    obtain ⟨a, _, hca⟩ := List.mem_flatMap.mp hc
    by_cases hsafe : quoteAlwaysSafe a = true ∨ safe.contains a = true
    · rw [if_pos hsafe] at hca
      rcases List.mem_singleton.mp hca with rfl
      have hq : quoteAlwaysSafe c = true := by
        rcases hsafe with h | h
        · exact h
        · exact hs c (List.mem_of_elem_eq_true h)
      rw [quoteAlwaysSafe_iff] at hq
      tauto
    · rw [if_neg hsafe] at hca
      obtain ⟨b, hb, hcb⟩ := List.mem_flatMap.mp hca
      have hvalid : a.toNat < 1114112 := by
        have h' : a.val < (1114112 : UInt32) := by
          rcases a.valid with h | ⟨_, h⟩
          · exact lt_trans h (by decide)
          · exact h
        simpa [UInt32.lt_def, BitVec.lt_def] using h'
      have hb256 : b < 256 := by
        rw [utf8Bytes] at hb
        split_ifs at hb <;> simp at hb <;> omega
      have hhex : ∀ m, m < 16 → (hexUp m).toNat = if m < 10 then 48 + m else 55 + m := by
        intro m hm
        rw [hexUp]
        split_ifs with h10
        · rw [digitChar]
          exact charToNat_ofNat (by omega)
        · exact charToNat_ofNat (by omega)
      simp only [List.mem_cons, List.mem_singleton, List.not_mem_nil, or_false] at hcb
      rcases hcb with rfl | rfl | rfl
      · have h37 : ('%' : Char).toNat = 37 := rfl
        tauto
      · have := hhex (b / 16) (by omega)
        split_ifs at this <;> omega
      · have := hhex (b % 16) (by omega)
        split_ifs at this <;> omega
  refine ⟨?_, ?_⟩
  · rw [urlPlainChar_iff]
    omega
  · intro e
    have h58 : c.toNat = 58 := by
      rw [e]
      rfl
    omega

theorem netlocHostname_ne_empty (nl : List Char) (h : String)
    (hh : netlocHostname nl = some h) : h ≠ "" := by
  simp only [netlocHostname] at hh
  split at hh
  · exact absurd hh (by simp)
  · next hne =>
    rw [Option.some.injEq] at hh
    intro e
    apply hne
    have hd : hostnameNorm ((hostPortSplit (hostinfoOf nl)).1) = [] :=
      congrArg String.data (hh.trans e)
    have hlen := hostnameNorm_length ((hostPortSplit (hostinfoOf nl)).1)
    rw [hd] at hlen
    exact List.eq_nil_of_length_eq_zero hlen.symm

theorem netlocPort_le (nl : List Char) (port : Nat)
    (hp : netlocPort nl = some port) : port ≤ 65535 := by
  simp only [netlocPort] at hp
  split at hp
  · exact absurd hp (by simp)
  · simp only [pyPortParse] at hp
    split at hp
    · split at hp
      · next hle =>
        rw [Option.some.injEq] at hp
        rw [← hp]
        exact hle
      · exact absurd hp (by simp)
    · exact absurd hp (by simp)

theorem splitScheme_http (w : List Char) :
    splitScheme ((("http://" : String).data) ++ w) =
      ((("http" : String).data), '/' :: '/' :: w) := rfl

theorem urlFilter_http (v2 : List Char) :
    urlFilter ⟨(("http://" : String).data) ++ v2⟩ =
      (("http://" : String).data) ++
        v2.filter (fun c => ¬ (c = '\t' ∨ c = '\x0d' ∨ c = '\n')) := by
  show ((("http://" : String).data) ++ v2).filter _ = _
  rw [List.filter_append]
  rfl

theorem scheme_default_of_no_explicit (value : String)
    (hs : lineExplicitScheme value = none) :
    (if (⟨(splitScheme (urlFilter (proxyLineNormalize value))).1⟩ : String) = "" then "http"
     else (⟨(splitScheme (urlFilter (proxyLineNormalize value))).1⟩ : String)) = "http" := by
  simp only [lineExplicitScheme] at hs
  by_cases hsub : hasSub (("://" : String).data) (reorderValue value) = true
  · rw [if_neg (not_not_intro hsub)] at hs
    split at hs
    · next he =>
      have h1 : proxyLineNormalize value = ⟨reorderValue value⟩ := by
        simp only [proxyLineNormalize]
        rw [if_neg (not_not_intro hsub)]
      rw [h1]
      rw [show urlFilter ⟨reorderValue value⟩ = (reorderValue value).filter
        (fun c => ¬ (c = '\t' ∨ c = '\x0d' ∨ c = '\n')) from rfl]
      rw [List.isEmpty_iff.mp he]
      rfl
    · exact absurd hs (by simp)
  · have h1 : proxyLineNormalize value = ⟨(("http://" : String).data) ++ reorderValue value⟩ := by
      simp only [proxyLineNormalize]
      rw [if_pos hsub]
    rw [h1, urlFilter_http, splitScheme_http]
    rfl

theorem takeWhile_append_all (p : Char → Bool) (l r : List Char)
    (h : ∀ c ∈ l, p c = true) : (l ++ r).takeWhile p = l ++ r.takeWhile p := by
  induction l with
  | nil => rfl
  | cons a t ih =>
    rw [List.cons_append, List.takeWhile_cons, h a (List.mem_cons_self a t),
      ih (fun c hc => h c (List.mem_cons_of_mem a hc))]
    rfl

theorem dropWhile_append_all (p : Char → Bool) (l r : List Char)
    (h : ∀ c ∈ l, p c = true) : (l ++ r).dropWhile p = r.dropWhile p := by
  induction l with
  | nil => rfl
  | cons a t ih =>
    rw [List.cons_append, List.dropWhile_cons, h a (List.mem_cons_self a t),
      ih (fun c hc => h c (List.mem_cons_of_mem a hc))]
    rfl

theorem takeWhile_all (p : Char → Bool) (l : List Char)
    (h : ∀ c ∈ l, p c = true) : l.takeWhile p = l := by
  have := takeWhile_append_all p l [] h
  simpa using this

theorem takeWhile_cons_false (p : Char → Bool) (a : Char) (l : List Char)
    (h : p a = false) : (a :: l).takeWhile p = [] := by
  rw [List.takeWhile_cons, h]
  rfl

theorem dropWhile_cons_false (p : Char → Bool) (a : Char) (l : List Char)
    (h : p a = false) : (a :: l).dropWhile p = a :: l := by
  rw [List.dropWhile_cons, h]
  rfl

theorem dropWhile_head_false (p : Char → Bool) (l : List Char) (a : Char) (t : List Char)
    (h : l.dropWhile p = a :: t) : p a = false := by
  induction l with
  | nil => cases h
  | cons x xs ih =>
    rw [List.dropWhile_cons] at h
    split_ifs at h with hx
    · exact ih h
    · rw [List.cons.injEq] at h
      rw [← h.1]
      exact Bool.not_eq_true _ ▸ hx

theorem rpartAt_of_not_mem (sep : Char) (l : List Char) (h : ¬ sep ∈ l) :
    rpartAt sep l = none := by
  rw [rpartAt, if_neg]
  intro hc
  exact h (List.mem_of_elem_eq_true hc)

theorem rpartAt_last (sep : Char) (a b : List Char) (hb : ∀ c ∈ b, c ≠ sep) :
    rpartAt sep (a ++ sep :: b) = some (a, b) := by
  have hmem : sep ∈ a ++ sep :: b := List.mem_append_right a (List.mem_cons_self sep b)
  rw [rpartAt, if_pos (List.elem_eq_true_of_mem hmem)]
  have hrev : (a ++ sep :: b).reverse = b.reverse ++ sep :: a.reverse := by
    rw [List.reverse_append, List.reverse_cons, List.append_assoc]
    rfl
  have hbrev : ∀ c ∈ b.reverse, (fun c => decide (c ≠ sep)) c = true := by
    intro c hc
    exact decide_eq_true (hb c (List.mem_reverse.mp hc))
  rw [hrev, takeWhile_append_all _ _ _ hbrev, dropWhile_append_all _ _ _ hbrev,
    takeWhile_cons_false _ _ _ (by simp), dropWhile_cons_false _ _ _ (by simp)]
  simp

theorem natDecAux_spec : ∀ fuel n, n < fuel →
    natDecAux fuel n ≠ [] ∧ (∀ c ∈ natDecAux fuel n, c.isDigit = true) ∧
    digitsVal (natDecAux fuel n) = n := by
  intro fuel
  induction fuel with
  | zero => intro n h; exact absurd h (Nat.not_lt_zero n)
  | succ fuel ih =>
    intro n hn
    rw [natDecAux]
    split_ifs with h10
    · refine ⟨by simp, ?_, ?_⟩
      · intro c hc
        rcases List.mem_singleton.mp hc with rfl
        rw [isDigit_iff, digitChar, charToNat_ofNat (by omega)]
        omega
      · show digitsVal [digitChar n] = n
        rw [digitsVal, List.foldl_cons, List.foldl_nil, digitChar,
          charToNat_ofNat (by omega)]
        omega
    · obtain ⟨hne, hdig, hval⟩ := ih (n / 10) (by omega)
      refine ⟨by simp, ?_, ?_⟩
      · intro c hc
        rcases List.mem_append.mp hc with hc | hc
        · exact hdig c hc
        · rcases List.mem_singleton.mp hc with rfl
          rw [isDigit_iff, digitChar, charToNat_ofNat (by omega)]
          omega
      · rw [digitsVal, List.foldl_append, List.foldl_cons, List.foldl_nil]
        show digitsVal (natDecAux fuel (n / 10)) * 10 + ((digitChar (n % 10)).toNat - 48) = n
        rw [hval, digitChar, charToNat_ofNat (by omega)]
        omega

theorem natDec_spec (n : Nat) :
    (natDec n).data ≠ [] ∧ (∀ c ∈ (natDec n).data, c.isDigit = true) ∧
    digitsVal ((natDec n).data) = n :=
  natDecAux_spec (n + 1) n (Nat.lt_succ_self n)

theorem pyPortParse_natDec (port : Nat) (h : port ≤ 65535) :
    pyPortParse ((natDec port).data) = some port := by
  obtain ⟨hne, hdig, hval⟩ := natDec_spec port
  rw [pyPortParse, if_pos ⟨hne, List.all_eq_true.mpr hdig⟩, if_pos (by rw [hval]; exact h),
    hval]

theorem isSchemeChar_toLower (c : Char) (h : isSchemeChar c = true) :
    isSchemeChar (Char.toLower c) = true := by
  rw [isSchemeChar_iff] at h ⊢
  rw [toLower_toNat]
  split_ifs <;> omega

theorem isAlpha_toLower (c : Char) (h : c.isAlpha = true) :
    (Char.toLower c).isAlpha = true := by
  rw [isAlpha_iff] at h ⊢
  rw [toLower_toNat]
  split_ifs <;> omega

theorem isSchemeChar_ne_colon (c : Char) (h : isSchemeChar c = true) : c ≠ ':' := by
  rw [isSchemeChar_iff] at h
  intro e
  have h58 : c.toNat = 58 := by
    rw [e]
    rfl
  omega

/-- The first component of `splitScheme` is either empty or the
lowercased colon-free run at the front of the input, which satisfies the
scheme well-formedness checks. -/
theorem splitScheme_fst_cases (u : List Char) :
    (splitScheme u).1 = [] ∨
    ((splitScheme u).1 = (u.takeWhile (fun c => c ≠ ':')).map Char.toLower ∧
      (u.takeWhile (fun c => c ≠ ':')).all isSchemeChar = true ∧
      (match (u.takeWhile (fun c => c ≠ ':')).head? with
        | some c => c.isAlpha
        | none => false) = true ∧
      u.takeWhile (fun c => c ≠ ':') ≠ []) := by
  rw [splitScheme]
  split_ifs with h1 h2 h3
  · left; rfl
  · left; rfl
  · right
    rw [Bool.and_eq_true] at h3
    refine ⟨rfl, h3.1, h3.2, ?_⟩
    intro e
    rw [e] at h2
    exact h2 rfl
  · left; rfl

/-- Scheme-side facts about any config produced by `parse_proxy_line`:
the scheme is nonempty, made of scheme characters, starts with a letter
(so re-parsing the built URL splits the scheme off again). -/
theorem parse_scheme_ok (line : String) (cfg : ProxyConfig)
    (hp : parse_proxy_line line = some cfg) :
    cfg.scheme.data ≠ [] ∧ (∀ c ∈ cfg.scheme.data, isSchemeChar c = true) ∧
    (match cfg.scheme.data.head? with
      | some c => c.isAlpha
      | none => false) = true := by
  simp only [parse_proxy_line] at hp
  by_cases hg : (pyStrip line).data = [] ∨ (pyStrip line).data.head? = some '#'
  · rw [if_pos hg] at hp
    exact Option.noConfusion hp
  · rw [if_neg hg] at hp
    rcases hm : urlsplitModel (proxyLineNormalize (pyStrip line)) with _ | p
    · rw [hm] at hp
      exact Option.noConfusion hp
    · rw [hm] at hp
      dsimp only at hp
      rcases hh : p.hostname with _ | h
      · rw [hh] at hp
        exact Option.noConfusion hp
      · rcases hp2 : p.port with _ | port
        · rw [hh, hp2] at hp
          exact Option.noConfusion hp
        · rw [hh, hp2] at hp
          dsimp only at hp
          by_cases hz : port = 0
          · rw [if_pos hz] at hp
            exact Option.noConfusion hp
          · rw [if_neg hz] at hp
            rw [Option.some.injEq] at hp
            subst hp
            have hmrec := hm
            simp only [urlsplitModel] at hmrec
            split_ifs at hmrec with hb
            rw [Option.some.injEq] at hmrec
            have hscheme : p.scheme =
                ⟨(splitScheme (urlFilter (proxyLineNormalize (pyStrip line)))).1⟩ := by
              rw [← hmrec]
            show (if p.scheme = "" then ("http" : String) else p.scheme).data ≠ [] ∧ _
            by_cases hemp : p.scheme = ""
            · rw [if_pos hemp]
              refine ⟨?_, ?_, ?_⟩
              · show ("http" : String).data ≠ []
                decide
              · show ∀ c ∈ ("http" : String).data, isSchemeChar c = true
                decide
              · show (match ("http" : String).data.head? with
                  | some c => c.isAlpha
                  | none => false) = true
                decide
            · rw [if_neg hemp]
              rcases splitScheme_fst_cases (urlFilter (proxyLineNormalize (pyStrip line)))
                with hc | ⟨he, hall, hhead, hne⟩
              · exact absurd (by rw [hscheme, hc]) hemp
              · rw [hscheme, he]
                refine ⟨by simpa using hne, ?_, ?_⟩
                · intro c hc
                  obtain ⟨d, hd, rfl⟩ := List.mem_map.mp hc
                  exact isSchemeChar_toLower d (List.all_eq_true.mp hall d hd)
                · rw [List.head?_map]
                  rcases hhd : (urlFilter
                      (proxyLineNormalize (pyStrip line))).takeWhile (fun c => c ≠ ':')
                      |>.head? with _ | d
                  · rw [hhd] at hhead
                    cases hhead
                  · rw [hhd] at hhead
                    exact isAlpha_toLower d hhead

theorem toLower_ne_pct (c : Char) (h : c ≠ '%') : Char.toLower c ≠ '%' := by
  intro e
  apply h
  rw [char_eq_iff_toNat] at e ⊢
  rw [toLower_toNat] at e
  have h37 : ('%' : Char).toNat = 37 := rfl
  rw [h37] at e ⊢
  split_ifs at e <;> omega

theorem hostnameNorm_idem (l : List Char) :
    hostnameNorm (hostnameNorm l) = hostnameNorm l := by
  have hTprop : ∀ c ∈ (l.takeWhile (fun c => c ≠ '%')).map Char.toLower,
      (fun c => decide (c ≠ '%')) c = true := by
    intro c hc
    obtain ⟨d, hd, rfl⟩ := List.mem_map.mp hc
    have hpd := List.mem_takeWhile_imp hd
    exact decide_eq_true (toLower_ne_pct d (by simpa using hpd))
  have hmapmap : ((l.takeWhile (fun c => c ≠ '%')).map Char.toLower).map Char.toLower =
      (l.takeWhile (fun c => c ≠ '%')).map Char.toLower := by
    rw [List.map_map]
    exact List.map_congr_left (fun a _ => toLower_idem a)
  unfold hostnameNorm
  rcases hD : l.dropWhile (fun c => c ≠ '%') with _ | ⟨d, D'⟩
  · simp only [List.append_nil]
    rw [takeWhile_all _ _ hTprop,
      List.dropWhile_eq_nil_iff.mpr (fun c hc => hTprop c hc), List.append_nil, hmapmap]
  · have hd : d = '%' := by
      have := dropWhile_head_false _ _ _ _ hD
      simpa using this
    subst hd
    rw [takeWhile_append_all _ _ _ hTprop, dropWhile_append_all _ _ _ hTprop,
      takeWhile_cons_false _ _ _ (by simp), dropWhile_cons_false _ _ _ (by simp),
      List.append_nil, hmapmap]

theorem char_ne_of_toNat {c d : Char} (hc : c.toNat ≠ d.toNat) : c ≠ d := by
  intro e
  exact hc (congrArg Char.toNat e)

theorem plain_ne_at {c : Char} (h : urlPlainChar c = true) : c ≠ '@' := by
  rw [urlPlainChar_iff] at h
  exact char_ne_of_toNat (by revert h; show _ → c.toNat ≠ 64; omega)

theorem filter_keep (c : Char)
    (h : isSchemeChar c = true ∨ c = ':' ∨ c = '/' ∨ c = '@' ∨ urlPlainChar c = true) :
    (fun c => decide (¬ (c = '\t' ∨ c = '\x0d' ∨ c = '\n'))) c = true := by
  apply decide_eq_true
  intro hcon
  have h9 : ('\t' : Char).toNat = 9 := rfl
  have h13 : ('\x0d' : Char).toNat = 13 := rfl
  have h10 : ('\n' : Char).toNat = 10 := rfl
  have hn : c.toNat = 9 ∨ c.toNat = 13 ∨ c.toNat = 10 := by
    rcases hcon with e | e | e
    · exact Or.inl (h9 ▸ congrArg Char.toNat e)
    · exact Or.inr (Or.inl (h13 ▸ congrArg Char.toNat e))
    · exact Or.inr (Or.inr (h10 ▸ congrArg Char.toNat e))
  rcases h with h | h | h | h | h
  · rw [isSchemeChar_iff] at h
    omega
  · have := congrArg Char.toNat h
    rw [show (':' : Char).toNat = 58 from rfl] at this
    omega
  · have := congrArg Char.toNat h
    rw [show ('/' : Char).toNat = 47 from rfl] at this
    omega
  · have := congrArg Char.toNat h
    rw [show ('@' : Char).toNat = 64 from rfl] at this
    omega
  · rw [urlPlainChar_iff] at h
    omega

theorem netloc_keep (c : Char) (h : c = '@' ∨ urlPlainChar c = true) :
    (fun c => decide (¬ (c = '/' ∨ c = '?' ∨ c = '#'))) c = true := by
  apply decide_eq_true
  intro hcon
  have hn : c.toNat = 47 ∨ c.toNat = 63 ∨ c.toNat = 35 := by
    rcases hcon with e | e | e
    · exact Or.inl (congrArg Char.toNat e)
    · exact Or.inr (Or.inl (congrArg Char.toNat e))
    · exact Or.inr (Or.inr (congrArg Char.toNat e))
  rcases h with h | h
  · have := congrArg Char.toNat h
    rw [show ('@' : Char).toNat = 64 from rfl] at this
    omega
  · rw [urlPlainChar_iff] at h
    omega

theorem bracketfree (c : Char) (b : Char) (hb : b = '[' ∨ b = ']')
    (h : c = '@' ∨ c = ':' ∨ urlPlainChar c = true) : c ≠ b := by
  apply char_ne_of_toNat
  have hbn : b.toNat = 91 ∨ b.toNat = 93 := by
    rcases hb with rfl | rfl
    · exact Or.inl rfl
    · exact Or.inr rfl
  rcases h with rfl | rfl | h
  · have h64 : ('@' : Char).toNat = 64 := rfl
    omega
  · have h58 : (':' : Char).toNat = 58 := rfl
    omega
  · rw [urlPlainChar_iff] at h
    omega

theorem splitScheme_snd_subset (u : List Char) : ∀ c ∈ (splitScheme u).2, c ∈ u := by
  rw [splitScheme]
  split_ifs <;> intro c hc
  · exact hc
  · exact hc
  · exact (List.dropWhile_sublist _).subset ((List.drop_sublist 1 _).subset hc)
  · exact hc

theorem netlocOf_props (rest : List Char) :
    ∀ c ∈ netlocOf rest, c ∈ rest ∧ ¬ (c = '/' ∨ c = '?' ∨ c = '#') := by
  rw [netlocOf]
  split_ifs with hpre <;> intro c hc
  · refine ⟨(List.drop_sublist 2 rest).subset ((List.takeWhile_sublist _).subset hc), ?_⟩
    have := List.mem_takeWhile_imp hc
    simpa using this
  · exact absurd hc (List.not_mem_nil c)

theorem hostinfoOf_props (nl : List Char) :
    ∀ c ∈ hostinfoOf nl, c ∈ nl ∧ c ≠ '@' := by
  rw [hostinfoOf]
  rcases hr : rpartAt '@' nl with _ | ab
  · intro c hc
    refine ⟨hc, ?_⟩
    rw [rpartAt] at hr
    split_ifs at hr with hcon
    intro e
    rw [e] at hc
    exact hcon (List.elem_eq_true_of_mem hc)
  · intro c hc
    dsimp only at hc
    rw [rpartAt] at hr
    split_ifs at hr with hcon
    rw [Option.some.injEq] at hr
    have hb : ab.2 = (nl.reverse.takeWhile (fun c => c ≠ '@')).reverse := by
      rw [← hr]
    rw [hb, List.mem_reverse] at hc
    have hpred := List.mem_takeWhile_imp hc
    refine ⟨List.mem_reverse.mp ((List.takeWhile_sublist _).subset hc), by simpa using hpred⟩

theorem hostPortSplit_fst_subset (hi : List Char) :
    ∀ c ∈ (hostPortSplit hi).1, c ∈ hi := by
  rw [hostPortSplit]
  split_ifs with hbr <;> intro c hc
  · have h1 : c ∈ afterFirst '[' hi := (List.takeWhile_sublist _).subset hc
    rw [afterFirst] at h1
    exact (List.dropWhile_sublist _).subset ((List.drop_sublist 1 _).subset h1)
  · exact (List.takeWhile_sublist _).subset hc

theorem urlFilter_props (url : String) :
    ∀ c ∈ urlFilter url, ¬ (c = '\t' ∨ c = '\x0d' ∨ c = '\n') := by
  intro c hc
  have := (List.mem_filter.mp hc).2
  simpa using this

/-- Re-parsing a URL of the shape the program builds —
`scheme://[auth@]host:port` with a well-formed scheme, an authority free
of URL delimiters, a nonempty colon/bracket-free host and a decimal port
— recovers the (normalised) host and the port. -/
theorem urlsplit_reconstruct (S A H : List Char) (port : Nat)
    (hSne : S ≠ [])
    (hSchars : ∀ c ∈ S, isSchemeChar c = true)
    (hShead : (match S.head? with
      | some c => c.isAlpha
      | none => false) = true)
    (hA : A = [] ∨ ∃ A', A = A' ++ [('@' : Char)] ∧ ∀ c ∈ A', urlPlainChar c = true)
    (hHne : H ≠ [])
    (hH : ∀ c ∈ H, urlPlainChar c = true ∧ c ≠ ':')
    (hport : port ≤ 65535) :
    urlHostPort ⟨S ++ ':' :: '/' :: '/' :: (A ++ (H ++ ':' :: (natDec port).data))⟩ =
      some ((⟨hostnameNorm H⟩ : String), port) := by
  obtain ⟨hPne, hPdig, hPval⟩ := natDec_spec port
  have hPplain : ∀ c ∈ (natDec port).data, urlPlainChar c = true := by
    intro c hc
    have hd := hPdig c hc
    rw [isDigit_iff] at hd
    rw [urlPlainChar_iff]
    omega
  have hXprops : ∀ c ∈ A ++ (H ++ ':' :: (natDec port).data),
      c = '@' ∨ c = ':' ∨ urlPlainChar c = true := by
    intro c hc
    rcases List.mem_append.mp hc with hc | hc
    · rcases hA with rfl | ⟨A', rfl, hA'⟩
      · cases hc
      · rcases List.mem_append.mp hc with hc | hc
        · exact Or.inr (Or.inr (hA' c hc))
        · rcases List.mem_singleton.mp hc with rfl
          exact Or.inl rfl
    · rcases List.mem_append.mp hc with hc | hc
      · exact Or.inr (Or.inr ((hH c hc).1))
      · rcases List.mem_cons.mp hc with rfl | hc
        · exact Or.inr (Or.inl rfl)
        · exact Or.inr (Or.inr (hPplain c hc))
  have hSnc : ∀ c ∈ S, (fun c => decide (c ≠ ':')) c = true := fun c hc =>
    decide_eq_true (isSchemeChar_ne_colon c (hSchars c hc))
  have hfilter : urlFilter ⟨S ++ ':' :: '/' :: '/' :: (A ++ (H ++ ':' :: (natDec port).data))⟩
      = S ++ ':' :: '/' :: '/' :: (A ++ (H ++ ':' :: (natDec port).data)) := by
    show List.filter _ _ = _
    rw [List.filter_eq_self]
    intro c hc
    rcases List.mem_append.mp hc with hc | hc
    · exact filter_keep _ (Or.inl (hSchars c hc))
    · rcases List.mem_cons.mp hc with rfl | hc
      · exact filter_keep _ (Or.inr (Or.inl rfl))
      · rcases List.mem_cons.mp hc with rfl | hc
        · exact filter_keep _ (Or.inr (Or.inr (Or.inl rfl)))
        · rcases List.mem_cons.mp hc with rfl | hc
          · exact filter_keep _ (Or.inr (Or.inr (Or.inl rfl)))
          · rcases hXprops c hc with rfl | rfl | h
            · exact filter_keep _ (Or.inr (Or.inr (Or.inr (Or.inl rfl))))
            · exact filter_keep _ (Or.inr (Or.inl rfl))
            · exact filter_keep _ (Or.inr (Or.inr (Or.inr (Or.inr h))))
  have htake : (S ++ ':' :: '/' :: '/' :: (A ++ (H ++ ':' :: (natDec port).data))).takeWhile
      (fun c => c ≠ ':') = S := by
    rw [takeWhile_append_all _ _ _ hSnc, takeWhile_cons_false _ _ _ (by simp),
      List.append_nil]
  have hdrop : (S ++ ':' :: '/' :: '/' :: (A ++ (H ++ ':' :: (natDec port).data))).dropWhile
      (fun c => c ≠ ':') = ':' :: '/' :: '/' :: (A ++ (H ++ ':' :: (natDec port).data)) := by
    rw [dropWhile_append_all _ _ _ hSnc, dropWhile_cons_false _ _ _ (by simp)]
  have hsplit : splitScheme (S ++ ':' :: '/' :: '/' :: (A ++ (H ++ ':' :: (natDec port).data)))
      = (S.map Char.toLower, '/' :: '/' :: (A ++ (H ++ ':' :: (natDec port).data))) := by
    rw [splitScheme]
    simp only [htake, hdrop]
    rw [if_neg (by simp), if_neg (by simpa [List.isEmpty_iff] using hSne),
      if_pos (by rw [Bool.and_eq_true]; exact ⟨List.all_eq_true.mpr hSchars, hShead⟩)]
    rfl
  have hnet : netlocOf ('/' :: '/' :: (A ++ (H ++ ':' :: (natDec port).data)))
      = A ++ (H ++ ':' :: (natDec port).data) := by
    rw [netlocOf, if_pos (by simp [List.isPrefixOf])]
    show (A ++ (H ++ ':' :: (natDec port).data)).takeWhile _ = _
    apply takeWhile_all
    intro c hc
    rcases hXprops c hc with rfl | rfl | h
    · exact netloc_keep _ (Or.inl rfl)
    · exact netloc_keep _ (Or.inr (by
        rw [urlPlainChar_iff, show (':' : Char).toNat = 58 from rfl]
        omega))
    · exact netloc_keep _ (Or.inr h)
  have hnobr : ∀ b, (b = '[' ∨ b = ']') →
      ¬ b ∈ A ++ (H ++ ':' :: (natDec port).data) := by
    intro b hb hmem
    exact bracketfree b b hb (hXprops b hmem) rfl
  have hbrf : bracketImbalanced (A ++ (H ++ ':' :: (natDec port).data)) = false := by
    cases hbb : bracketImbalanced (A ++ (H ++ ':' :: (natDec port).data)) with
    | false => rfl
    | true =>
      exfalso
      rw [bracketImbalanced] at hbb
      rcases of_decide_eq_true hbb with ⟨ha, _⟩ | ⟨ha, _⟩
      · exact hnobr '[' (Or.inl rfl) (List.mem_of_elem_eq_true ha)
      · exact hnobr ']' (Or.inr rfl) (List.mem_of_elem_eq_true ha)
  have hhibody : ∀ c ∈ H ++ ':' :: (natDec port).data, c ≠ '@' := by
    intro c hc
    rcases List.mem_append.mp hc with hc | hc
    · exact plain_ne_at ((hH c hc).1)
    · rcases List.mem_cons.mp hc with rfl | hc
      · exact char_ne_of_toNat (by decide)
      · exact plain_ne_at (hPplain c hc)
  have hhi : hostinfoOf (A ++ (H ++ ':' :: (natDec port).data))
      = H ++ ':' :: (natDec port).data := by
    rcases hA with rfl | ⟨A', rfl, hA'⟩
    · rw [hostinfoOf, rpartAt_of_not_mem _ _ (by
        intro hmem
        exact hhibody '@' (by simpa using hmem) rfl)]
      rfl
    · rw [hostinfoOf, show (A' ++ [('@' : Char)]) ++ (H ++ ':' :: (natDec port).data)
        = A' ++ '@' :: (H ++ ':' :: (natDec port).data) by
          rw [List.append_assoc, List.singleton_append],
        rpartAt_last _ _ _ hhibody]
  have hhps : hostPortSplit (H ++ ':' :: (natDec port).data) = (H, (natDec port).data) := by
    rw [hostPortSplit, if_neg (by
      intro hcon
      have hmem := List.mem_of_elem_eq_true hcon
      rcases List.mem_append.mp hmem with hm | hm
      · exact bracketfree '[' '[' (Or.inl rfl)
          (Or.inr (Or.inr ((hH _ hm).1))) rfl
      · rcases List.mem_cons.mp hm with he | hm
        · exact absurd (congrArg Char.toNat he) (by decide)
        · exact bracketfree '[' '[' (Or.inl rfl)
            (Or.inr (Or.inr (hPplain _ hm))) rfl)]
    have ht : (H ++ ':' :: (natDec port).data).takeWhile (fun c => c ≠ ':') = H := by
      rw [takeWhile_append_all _ _ _ (fun c hc => decide_eq_true ((hH c hc).2)),
        takeWhile_cons_false _ _ _ (by simp), List.append_nil]
    have hd : afterFirst ':' (H ++ ':' :: (natDec port).data) = (natDec port).data := by
      rw [afterFirst, dropWhile_append_all _ _ _ (fun c hc => decide_eq_true ((hH c hc).2)),
        dropWhile_cons_false _ _ _ (by simp), List.drop_one, List.tail_cons]
    rw [ht, hd]
  rw [urlHostPort]
  simp only [urlsplitModel, hfilter, hsplit, hnet, hbrf]
  rw [if_neg (by simp)]
  dsimp only
  rw [netlocHostname, netlocPort, hhi, hhps]
  dsimp only
  rw [if_neg hHne, if_neg hPne, pyPortParse_natDec port hport]

theorem toLower_preserves_not_delim (c : Char)
    (h : ¬ (c = '@' ∨ c = '/' ∨ c = '?' ∨ c = '#' ∨ c = '\t' ∨ c = '\x0d' ∨ c = '\n')) :
    ¬ (Char.toLower c = '@' ∨ Char.toLower c = '/' ∨ Char.toLower c = '?' ∨
       Char.toLower c = '#' ∨ Char.toLower c = '\t' ∨ Char.toLower c = '\x0d' ∨
       Char.toLower c = '\n') := by
  by_cases hr : 65 ≤ c.toNat ∧ c.toNat ≤ 90
  · have hts : (Char.toLower c).toNat = c.toNat + 32 := by rw [toLower_toNat, if_pos hr]
    intro hd
    rcases hd with e | e | e | e | e | e | e
    all_goals
      have he := congrArg Char.toNat e
      rw [hts] at he
      simp only [show ('@' : Char).toNat = 64 from rfl, show ('/' : Char).toNat = 47 from rfl,
        show ('?' : Char).toNat = 63 from rfl, show ('#' : Char).toNat = 35 from rfl,
        show ('\t' : Char).toNat = 9 from rfl, show ('\x0d' : Char).toNat = 13 from rfl,
        show ('\n' : Char).toNat = 10 from rfl] at he
      omega
  · have heq : Char.toLower c = c := by rw [char_eq_iff_toNat, toLower_toNat, if_neg hr]
    rw [heq]
    exact h

/-- The facts a successful `parse_proxy_line` guarantees about the host
and port: nonempty host, bounded port, host free of authority/path
delimiters and already hostname-normalised, and agreement with the raw
host/port text extracted from the line itself. -/
theorem parse_facts (line : String) (cfg : ProxyConfig)
    (hp : parse_proxy_line line = some cfg) :
    cfg.host.data ≠ [] ∧ cfg.port ≤ 65535 ∧
    (∀ c ∈ cfg.host.data, ¬ (c = '@' ∨ c = '/' ∨ c = '?' ∨ c = '#' ∨ c = '\t' ∨
      c = '\x0d' ∨ c = '\n')) ∧
    hostnameNorm cfg.host.data = cfg.host.data ∧
    lineRawHostPort line = some (((⟨(hostPortSplit (hostinfoOf (netlocOf (splitScheme
      (urlFilter (proxyLineNormalize (pyStrip line)))).2))).1⟩ : String), cfg.port)) ∧
    cfg.host = (⟨hostnameNorm ((hostPortSplit (hostinfoOf (netlocOf (splitScheme
      (urlFilter (proxyLineNormalize (pyStrip line)))).2))).1)⟩ : String) := by
  simp only [parse_proxy_line] at hp
  by_cases hg : (pyStrip line).data = [] ∨ (pyStrip line).data.head? = some '#'
  · rw [if_pos hg] at hp
    exact Option.noConfusion hp
  · rw [if_neg hg] at hp
    rcases hm : urlsplitModel (proxyLineNormalize (pyStrip line)) with _ | p
    · rw [hm] at hp
      exact Option.noConfusion hp
    · rw [hm] at hp
      dsimp only at hp
      rcases hh : p.hostname with _ | h
      · rw [hh] at hp
        exact Option.noConfusion hp
      · rcases hp2 : p.port with _ | port
        · rw [hh, hp2] at hp
          exact Option.noConfusion hp
        · rw [hh, hp2] at hp
          dsimp only at hp
          by_cases hz : port = 0
          · rw [if_pos hz] at hp
            exact Option.noConfusion hp
          · rw [if_neg hz] at hp
            rw [Option.some.injEq] at hp
            subst hp
            have hmrec := hm
            simp only [urlsplitModel] at hmrec
            split_ifs at hmrec with hb
            rw [Option.some.injEq] at hmrec
            have hhost : netlocHostname (netlocOf (splitScheme
                (urlFilter (proxyLineNormalize (pyStrip line)))).2) = some h := by
              rw [show netlocHostname (netlocOf (splitScheme
                (urlFilter (proxyLineNormalize (pyStrip line)))).2) = p.hostname
                from by rw [← hmrec], hh]
            have hport : netlocPort (netlocOf (splitScheme
                (urlFilter (proxyLineNormalize (pyStrip line)))).2) = some port := by
              rw [show netlocPort (netlocOf (splitScheme
                (urlFilter (proxyLineNormalize (pyStrip line)))).2) = p.port
                from by rw [← hmrec], hp2]
            have hple := netlocPort_le _ _ hport
            simp only [netlocHostname] at hhost
            split at hhost
            · exact absurd hhost (by simp)
            · next hHne =>
              rw [Option.some.injEq] at hhost
              have hppp : pyPortParse ((hostPortSplit (hostinfoOf (netlocOf (splitScheme
                  (urlFilter (proxyLineNormalize (pyStrip line)))).2))).2) = some port := by
                simp only [netlocPort] at hport
                split at hport
                · exact absurd hport (by simp)
                · exact hport
              have hHnd : ∀ d ∈ (hostPortSplit (hostinfoOf (netlocOf (splitScheme
                  (urlFilter (proxyLineNormalize (pyStrip line)))).2))).1,
                  ¬ (d = '@' ∨ d = '/' ∨ d = '?' ∨ d = '#' ∨ d = '\t' ∨
                    d = '\x0d' ∨ d = '\n') := by
                intro d hd
                have h1 := hostPortSplit_fst_subset _ d hd
                have h2 := hostinfoOf_props _ d h1
                have h3 := netlocOf_props _ d h2.1
                have h4 := splitScheme_snd_subset _ d h3.1
                have h5 := urlFilter_props _ d h4
                intro hcon
                rcases hcon with e | e | e | e | e | e | e
                · exact h2.2 e
                · exact h3.2 (Or.inl e)
                · exact h3.2 (Or.inr (Or.inl e))
                · exact h3.2 (Or.inr (Or.inr e))
                · exact h5 (Or.inl e)
                · exact h5 (Or.inr (Or.inl e))
                · exact h5 (Or.inr (Or.inr e))
              refine ⟨?_, hple, ?_, ?_, ?_, ?_⟩
              · show h.data ≠ []
                rw [← hhost]
                intro e
                have e2 : hostnameNorm ((hostPortSplit (hostinfoOf (netlocOf (splitScheme
                  (urlFilter (proxyLineNormalize (pyStrip line)))).2))).1) = [] := e
                have := hostnameNorm_length ((hostPortSplit (hostinfoOf (netlocOf (splitScheme
                  (urlFilter (proxyLineNormalize (pyStrip line)))).2))).1)
                rw [e2] at this
                exact hHne (List.eq_nil_of_length_eq_zero this.symm)
              · show ∀ c ∈ h.data, _
                rw [← hhost]
                intro c hc
                rcases List.mem_append.mp hc with hc | hc
                · obtain ⟨d, hd, rfl⟩ := List.mem_map.mp hc
                  exact toLower_preserves_not_delim d
                    (hHnd d ((List.takeWhile_sublist _).subset hd))
                · exact hHnd c ((List.dropWhile_sublist _).subset hc)
              · show hostnameNorm h.data = h.data
                rw [← hhost]
                exact hostnameNorm_idem _
              · rw [lineRawHostPort]
                dsimp only
                rw [if_neg hHne, hppp]
                rfl
              · show h = _
                rw [← hhost]

theorem build_string_data (s1 a h : String) (p : List Char) :
    (s1 ++ "://" ++ a ++ h ++ ":" ++ (⟨p⟩ : String)).data =
      s1.data ++ ':' :: '/' :: '/' :: (a.data ++ (h.data ++ ':' :: p)) := by
  show (((((s1.data ++ [':', '/', '/']) ++ a.data) ++ h.data) ++ [':']) ++ p) = _
  simp [List.append_assoc]

theorem subLitPlus_skip (l0 : Char) (lt : List Char) (cls : Char → Bool)
    (repl : List Char) (x : List Char) :
    (∀ c ∈ x, c ≠ l0) → ∀ (r : List Char) (m : Nat),
      subLitPlus (l0 :: lt) cls repl (x.length + m) (x ++ r) =
        x ++ subLitPlus (l0 :: lt) cls repl m r := by
  induction x with
  | nil =>
    intro _ r m
    simp
  | cons c cs ih =>
    intro hx r m
    have hc : c ≠ l0 := hx c (List.mem_cons_self c cs)
    show subLitPlus (l0 :: lt) cls repl (cs.length + 1 + m) (c :: (cs ++ r)) = _
    rw [show cs.length + 1 + m = (cs.length + m) + 1 from by omega]
    simp only [subLitPlus]
    rw [if_neg (fun hp => hc (by
      rw [List.isPrefixOf_cons₂, Bool.and_eq_true] at hp
      exact (eq_of_beq hp.1).symm))]
    rw [ih (fun d hd => hx d (List.mem_cons_of_mem c hd)) r m]
    rfl

theorem subLitPlus_skip_all (l0 : Char) (lt : List Char) (cls : Char → Bool)
    (repl : List Char) (l : List Char) :
    (∀ c ∈ l, c ≠ l0) → ∀ f : Nat, subLitPlus (l0 :: lt) cls repl f l = l := by
  induction l with
  | nil =>
    intro _ f
    cases f <;> rfl
  | cons c cs ih =>
    intro hl f
    cases f with
    | zero => rfl
    | succ f2 =>
      have hc : c ≠ l0 := hl c (List.mem_cons_self c cs)
      simp only [subLitPlus]
      rw [if_neg (fun hp => hc (by
        rw [List.isPrefixOf_cons₂, Bool.and_eq_true] at hp
        exact (eq_of_beq hp.1).symm))]
      rw [ih (fun d hd => hl d (List.mem_cons_of_mem c hd)) f2]

theorem subLitPlus_match (l0 : Char) (lt : List Char) (cls : Char → Bool)
    (repl : List Char) (tok y : List Char) (htokne : tok ≠ [])
    (htok : ∀ c ∈ tok, cls c = true)
    (hy : (match y.head? with
      | some c => cls c = false
      | none => True)) (f : Nat) :
    subLitPlus (l0 :: lt) cls repl (f + 1) ((l0 :: lt) ++ (tok ++ y)) =
      repl ++ subLitPlus (l0 :: lt) cls repl f y := by
  have hpre : (l0 :: lt).isPrefixOf (l0 :: (lt ++ (tok ++ y))) = true := by
    rw [List.isPrefixOf_iff_prefix]
    exact ⟨tok ++ y, rfl⟩
  have htake : (tok ++ y).takeWhile cls = tok := by
    rw [takeWhile_append_all cls tok y htok]
    cases y with
    | nil => exact List.append_nil tok
    | cons c ys =>
      have hc : cls c = false := hy
      rw [takeWhile_cons_false cls c ys hc, List.append_nil]
  show subLitPlus (l0 :: lt) cls repl (f + 1) (l0 :: (lt ++ (tok ++ y))) = _
  simp only [subLitPlus]
  rw [if_pos hpre]
  simp only [List.length_cons, List.drop_succ_cons, List.drop_left]
  rw [htake, if_neg (fun h => htokne (List.isEmpty_iff.mp h)), List.drop_left]

theorem subLitPlus_single (l0 : Char) (lt : List Char) (cls : Char → Bool)
    (repl : List Char) (x tok y : List Char) (m : Nat)
    (hx : ∀ c ∈ x, c ≠ l0) (htokne : tok ≠ []) (htok : ∀ c ∈ tok, cls c = true)
    (hy : (match y.head? with
      | some c => cls c = false
      | none => True))
    (hys : ∀ c ∈ y, c ≠ l0) :
    subLitPlus (l0 :: lt) cls repl (x.length + (m + 1)) (x ++ ((l0 :: lt) ++ (tok ++ y))) =
      x ++ (repl ++ y) := by
  rw [subLitPlus_skip l0 lt cls repl x hx ((l0 :: lt) ++ (tok ++ y)) (m + 1),
    subLitPlus_match l0 lt cls repl tok y htokne htok hy m,
    subLitPlus_skip_all l0 lt cls repl y hys m]

theorem hasSub_append (lit x r : List Char) : hasSub lit (x ++ lit ++ r) = true := by
  induction x with
  | nil =>
    show hasSub lit (lit ++ r) = true
    cases h : lit ++ r with
    | nil =>
      have he : lit = [] := (List.append_eq_nil.mp h).1
      rw [he]
      rfl
    | cons c rest =>
      simp only [hasSub]
      rw [← h]
      have hp : lit.isPrefixOf (lit ++ r) = true := by
        rw [List.isPrefixOf_iff_prefix]
        exact ⟨r, rfl⟩
      rw [hp, Bool.true_or]
  | cons c cs ih =>
    show hasSub lit (c :: (cs ++ lit ++ r)) = true
    simp only [hasSub]
    rw [ih, Bool.or_true]

/-- The session-id substitution on a username holding exactly one
`sessionid-` token: the token text is replaced in place, and whatever
follows the token (a `-` or `:`-led suffix) is preserved after the new
id. -/
theorem subSessionId_single (x t y sid : String)
    (hxs : ∀ c ∈ x.data, c ≠ 's') (htne : t.data ≠ [])
    (htc : ∀ c ∈ t.data, sidTokChar c = true)
    (hyh : (match y.data.head? with
      | some c => sidTokChar c = false
      | none => True))
    (hys : ∀ c ∈ y.data, c ≠ 's') :
    subSessionId (x ++ "sessionid-" ++ t ++ y) sid = x ++ "sessionid-" ++ sid ++ y := by
  have hdat : (x ++ "sessionid-" ++ t ++ y).data =
      x.data ++ (('s' :: ("essionid-" : String).data) ++ (t.data ++ y.data)) := by
    show ((x.data ++ ("sessionid-" : String).data) ++ t.data) ++ y.data = _
    rw [show ("sessionid-" : String).data = 's' :: ("essionid-" : String).data from rfl,
      List.append_assoc, List.append_assoc]
  have hlen : (x ++ "sessionid-" ++ t ++ y).data.length + 1 =
      x.data.length +
        ((("essionid-" : String).data.length + t.data.length + y.data.length + 1) + 1) := by
    rw [hdat]
    simp only [List.length_append, List.length_cons]
    omega
  show (⟨subLitPlus (("sessionid-" : String).data) sidTokChar
      ((("sessionid-" : String).data) ++ sid.data)
      ((x ++ "sessionid-" ++ t ++ y).data.length + 1)
      ((x ++ "sessionid-" ++ t ++ y).data)⟩ : String) = x ++ "sessionid-" ++ sid ++ y
  rw [hlen, hdat,
    show ("sessionid-" : String).data = 's' :: ("essionid-" : String).data from rfl,
    subLitPlus_single 's' (("essionid-" : String).data) sidTokChar
      (('s' :: ("essionid-" : String).data) ++ sid.data) x.data t.data y.data
      (("essionid-" : String).data.length + t.data.length + y.data.length + 1)
      hxs htne htc hyh hys]
  show (⟨x.data ++ ((('s' :: ("essionid-" : String).data) ++ sid.data) ++ y.data)⟩ : String) =
    (⟨((x.data ++ ("sessionid-" : String).data) ++ sid.data) ++ y.data⟩ : String)
  exact congrArg String.mk (by
    rw [show ('s' :: ("essionid-" : String).data) = ("sessionid-" : String).data from rfl]
    simp [List.append_assoc])

/-- The session-length substitution on a username holding exactly one
`sessionlength-` token: the digit run is replaced in place and the
suffix is preserved. -/
theorem subSessionLength_single (x d y : String) (n : Nat)
    (hxs : ∀ c ∈ x.data, c ≠ 's') (hdne : d.data ≠ [])
    (hdc : ∀ c ∈ d.data, c.isDigit = true)
    (hyh : (match y.data.head? with
      | some c => c.isDigit = false
      | none => True))
    (hys : ∀ c ∈ y.data, c ≠ 's') :
    subSessionLength (x ++ "sessionlength-" ++ d ++ y) n =
      x ++ "sessionlength-" ++ natDec n ++ y := by
  have hdat : (x ++ "sessionlength-" ++ d ++ y).data =
      x.data ++ (('s' :: ("essionlength-" : String).data) ++ (d.data ++ y.data)) := by
    show ((x.data ++ ("sessionlength-" : String).data) ++ d.data) ++ y.data = _
    rw [show ("sessionlength-" : String).data = 's' :: ("essionlength-" : String).data from rfl,
      List.append_assoc, List.append_assoc]
  have hlen : (x ++ "sessionlength-" ++ d ++ y).data.length + 1 =
      x.data.length +
        ((("essionlength-" : String).data.length + d.data.length + y.data.length + 1) + 1) := by
    rw [hdat]
    simp only [List.length_append, List.length_cons]
    omega
  show (⟨subLitPlus (("sessionlength-" : String).data) Char.isDigit
      ((("sessionlength-" : String).data) ++ (natDec n).data)
      ((x ++ "sessionlength-" ++ d ++ y).data.length + 1)
      ((x ++ "sessionlength-" ++ d ++ y).data)⟩ : String) =
    x ++ "sessionlength-" ++ natDec n ++ y
  rw [hlen, hdat,
    show ("sessionlength-" : String).data = 's' :: ("essionlength-" : String).data from rfl,
    subLitPlus_single 's' (("essionlength-" : String).data) Char.isDigit
      (('s' :: ("essionlength-" : String).data) ++ (natDec n).data) x.data d.data y.data
      (("essionlength-" : String).data.length + d.data.length + y.data.length + 1)
      hxs hdne hdc hyh hys]
  show (⟨x.data ++ ((('s' :: ("essionlength-" : String).data) ++ (natDec n).data) ++
      y.data)⟩ : String) =
    (⟨((x.data ++ ("sessionlength-" : String).data) ++ (natDec n).data) ++ y.data⟩ : String)
  exact congrArg String.mk (by
    rw [show ('s' :: ("essionlength-" : String).data) = ("sessionlength-" : String).data from
      rfl]
    simp [List.append_assoc])

theorem extractGo_length (hrefs : List (List Char)) :
    ∀ (seen : List (List Char)) (out : List PyVal),
      extractGo seen hrefs = some out → out.length = countNewKeys seen hrefs := by
  induction hrefs with
  | nil =>
    intro seen out h
    simp only [extractGo] at h
    rw [Option.some.injEq] at h
    subst h
    rfl
  | cons raw rest ih =>
    intro seen out h
    simp only [extractGo] at h
    show out.length = countNewKeys seen (raw :: rest)
    simp only [countNewKeys]
    by_cases hk : hrefKey (hrefProc raw) ∈ seen
    · rw [if_pos hk] at h
      rw [if_pos hk]
      exact ih seen out h
    · rw [if_neg hk] at h
      rw [if_neg hk]
      rcases hll : searchLatLng ((hrefProc raw).length + 1) (hrefProc raw) with _ | ⟨g1, g2⟩
      · rw [hll] at h
        dsimp only at h
        obtain ⟨tl, htl, hout⟩ := Option.map_eq_some'.mp h
        subst hout
        rw [List.length_cons, ih _ tl htl]
      · rw [hll] at h
        dsimp only at h
        rcases hf1 : pyFloatNum g1 with _ | la
        · rw [hf1] at h
          dsimp only at h
          exact Option.noConfusion h
        · rcases hf2 : pyFloatNum g2 with _ | lo
          · rw [hf1, hf2] at h
            dsimp only at h
            exact Option.noConfusion h
          · rw [hf1, hf2] at h
            dsimp only at h
            obtain ⟨tl, htl, hout⟩ := Option.map_eq_some'.mp h
            subst hout
            rw [List.length_cons, ih _ tl htl]

theorem extractGo_shape (hrefs : List (List Char)) :
    ∀ (seen : List (List Char)) (out : List PyVal),
      extractGo seen hrefs = some out →
      ∀ p ∈ out, ∃ (title : List Char) (pid did dcid : Option (List Char))
        (href : List Char) (la lo : Option Rat),
        p = placeDictOf title pid did dcid href la lo ∧
        (searchLatLng (href.length + 1) href = Option.none ↔ la = Option.none) ∧
        (la = Option.none ↔ lo = Option.none) := by
  induction hrefs with
  | nil =>
    intro seen out h
    simp only [extractGo] at h
    rw [Option.some.injEq] at h
    subst h
    intro p hp
    cases hp
  | cons raw rest ih =>
    intro seen out h
    simp only [extractGo] at h
    by_cases hk : hrefKey (hrefProc raw) ∈ seen
    · rw [if_pos hk] at h
      exact ih seen out h
    · rw [if_neg hk] at h
      rcases hll : searchLatLng ((hrefProc raw).length + 1) (hrefProc raw) with _ | ⟨g1, g2⟩
      · rw [hll] at h
        dsimp only at h
        obtain ⟨tl, htl, hout⟩ := Option.map_eq_some'.mp h
        subst hout
        intro p hp
        rcases List.mem_cons.mp hp with rfl | hp
        · exact ⟨_, _, _, _, hrefProc raw, Option.none, Option.none, rfl,
            iff_of_true hll rfl, iff_of_true rfl rfl⟩
        · exact ih _ tl htl p hp
      · rw [hll] at h
        dsimp only at h
        rcases hf1 : pyFloatNum g1 with _ | la
        · rw [hf1] at h
          dsimp only at h
          exact Option.noConfusion h
        · rcases hf2 : pyFloatNum g2 with _ | lo
          · rw [hf1, hf2] at h
            dsimp only at h
            exact Option.noConfusion h
          · rw [hf1, hf2] at h
            dsimp only at h
            obtain ⟨tl, htl, hout⟩ := Option.map_eq_some'.mp h
            subst hout
            intro p hp
            rcases List.mem_cons.mp hp with rfl | hp
            · exact ⟨_, _, _, _, hrefProc raw, some la, some lo, rfl,
                iff_of_false (by simp [hll]) (by simp),
                iff_of_false (by simp) (by simp)⟩
            · exact ih _ tl htl p hp

theorem parse_jsonld_go_spec (blocks : List (List Char)) :
    ∀ best : List (String × PyVal),
      parse_jsonld_go best blocks =
        match specFirstTypeHit blocks with
        | Option.none => Option.none
        | some (some v) => some v
        | some Option.none =>
          some (match best with
          | [] =>
            (match specFirstNonemptyObj blocks with
             | some kvs => PyVal.dict kvs
             | Option.none => PyVal.dict [])
          | _ => PyVal.dict best) := by
  induction blocks with
  | nil =>
    intro best
    cases best <;> rfl
  | cons b rest ih =>
    intro best
    simp only [parse_jsonld_go, specFirstTypeHit, specFirstNonemptyObj, blockValue]
    by_cases htxt : stripList (htmlUnescape (b.length + 1) b) = []
    · simp only [if_pos htxt]
      exact ih best
    · simp only [if_neg htxt]
      rcases hj : jsonLoads (stripList (htmlUnescape (b.length + 1) b)) with _ | data
      · exact ih best
      · rcases data with _ | bb | n | q | s | items | kvs
        · exact ih best
        · exact ih best
        · exact ih best
        · exact ih best
        · exact ih best
        · dsimp only [typeHitOf]
          rcases hfi : firstTypeItem items with _ | item
          · rfl
          · rcases item with _ | v
            · exact ih best
            · rfl
        · dsimp only [typeHitOf]
          rcases hbt : bizTypeTest (PyVal.dict kvs) with _ | bv
          · rfl
          · cases bv
            · rcases best with _ | ⟨b0, bs⟩
              · rcases kvs with _ | ⟨kv0, kvs2⟩
                · dsimp only
                  exact ih []
                · dsimp only
                  rw [ih (kv0 :: kvs2)]
                  rcases hhit : specFirstTypeHit rest with _ | v
                  · rfl
                  · rcases v with _ | v2 <;> rfl
              · dsimp only
                rw [ih (b0 :: bs)]
                rcases hhit : specFirstTypeHit rest with _ | v
                · rfl
                · rcases v with _ | v2 <;> rfl
            · rfl

theorem placeOfDict_none (kvs : List (String × PyVal))
    (ht : lookupKey kvs "title" = Option.none)
    (hn : lookupKey kvs "name" = Option.none) : placeOfDict kvs = Option.none := by
  simp only [placeOfDict, ht, hn]
  split_ifs <;> rfl

theorem placeOfDict_name (kvs : List (String × PyVal)) (v : PyVal)
    (hn : lookupKey kvs "name" = some v) :
    placeOfDict kvs = some (PyVal.dict [("title", v)]) := by
  simp only [placeOfDict, hn]
  have hgate : (lookupKey kvs "title").isSome = true ∨ (some v).isSome = true ∨
      (lookupKey kvs "place_id").isSome = true ∨ (lookupKey kvs "fsq_id").isSome = true :=
    Or.inr (Or.inl rfl)
  rw [if_pos hgate]
  rcases httl : lookupKey kvs "title" with _ | tv <;> rfl

theorem placeOfDict_title (kvs : List (String × PyVal)) (v : PyVal)
    (ht : lookupKey kvs "title" = some v)
    (hn : lookupKey kvs "name" = Option.none) :
    placeOfDict kvs = some (PyVal.dict [("title", v)]) := by
  simp only [placeOfDict, ht, hn]
  have hgate : (some v).isSome = true ∨ (Option.none : Option PyVal).isSome = true ∨
      (lookupKey kvs "place_id").isSome = true ∨ (lookupKey kvs "fsq_id").isSome = true :=
    Or.inl rfl
  rw [if_pos hgate]

/-! ## Claim theorems -/

/-- C2: `next_proxy` on a nonempty pool resolves the proxy at the current
cursor position modulo the pool size and advances the cursor by exactly
one; on an empty pool it returns `none` and leaves the pool untouched;
and starting from a fresh pool (cursor 0), over any `N ≥ 1` calls each
proxy index `i < K` is selected exactly `N / K` or `N / K + 1` times. -/
theorem claim_C2_round_robin (pool : ProxyPool) (key : String) (rng : Nat → Fin 36) :
    (pool.proxies = [] → pool.next_proxy key rng = (none, pool)) ∧
    (pool.proxies ≠ [] →
      (pool.next_proxy key rng).1 =
        (pool.proxies[pool.idx % pool.proxies.length]?).map
          (fun p => p.build_url (if pool.sticky then some (mkSessionId rng) else none)
            pool.session_length) ∧
      (pool.next_proxy key rng).2 = { pool with idx := pool.idx + 1 }) ∧
    (pool.idx = 0 → ∀ N i, 1 ≤ N → i < pool.proxies.length →
      pool.selectionCount key rng N i = N / pool.proxies.length ∨
      pool.selectionCount key rng N i = N / pool.proxies.length + 1) := by
  refine ⟨?_, ?_, ?_⟩
  · intro h
    rw [ProxyPool.next_proxy]
    simp [h]
  · intro h
    rw [next_proxy_nonempty pool key rng h]
    exact ⟨rfl, rfl⟩
  · intro h0 N i hN hiK
    have hK : 0 < pool.proxies.length := Nat.lt_of_le_of_lt (Nat.zero_le i) hiK
    have hne : pool.proxies ≠ [] := List.length_pos.mp hK
    have hfun : (fun t => decide ((ProxyPool.iterate pool key rng t).idx % pool.proxies.length = i))
        = (fun t => decide (t % pool.proxies.length = i)) := by
      funext t
      rw [(iterate_state pool key rng hne t).2, h0, Nat.zero_add]
    rw [ProxyPool.selectionCount, hfun, countP_range_mod _ _ hK hiK]
    split_ifs
    · right; rfl
    · left; rfl

/-- C2 witness: an empty pool yields `none` unchanged; over 5 calls on a
fresh 2-proxy pool, index 1 is selected `5 / 2` or `5 / 2 + 1` times; a
call on the fresh pool resolves index 0. -/
theorem claim_C2_round_robin_witness :
    (ProxyPool.next_proxy { proxies := [] } "k" (fun _ => (0 : Fin 36)) =
      (none, { proxies := [] })) ∧
    (ProxyPool.selectionCount
        { proxies := [{ scheme := "http", host := "a", port := 80 },
                      { scheme := "http", host := "b", port := 81 }] }
        "k" (fun _ => (0 : Fin 36)) 5 1 = 5 / 2 ∨
     ProxyPool.selectionCount
        { proxies := [{ scheme := "http", host := "a", port := 80 },
                      { scheme := "http", host := "b", port := 81 }] }
        "k" (fun _ => (0 : Fin 36)) 5 1 = 5 / 2 + 1) ∧
    (ProxyPool.next_proxy
        { proxies := [{ scheme := "http", host := "a", port := 80 },
                      { scheme := "http", host := "b", port := 81 }] }
        "k" (fun _ => (0 : Fin 36))).2.idx = 1 := by
  refine ⟨(claim_C2_round_robin _ "k" _).1 rfl, ?_, ?_⟩
  · exact (claim_C2_round_robin _ "k" _).2.2 rfl 5 1 (by decide) (by decide)
  · rw [((claim_C2_round_robin _ "k" (fun _ => (0 : Fin 36))).2.1 (by decide)).2]

/-- C4 (amended): on a sticky nonempty pool every call builds the URL
with a freshly generated session id of the form `s` followed by twelve
lowercase-alphanumeric draws — 13 characters in total, every one of them
lowercase-alphanumeric — and the result of `next_proxy` does not depend
on the `request_key` argument at all. -/
theorem claim_C4_sticky_session (pool : ProxyPool) (k1 k2 key : String)
    (rng : Nat → Fin 36) :
    pool.next_proxy k1 rng = pool.next_proxy k2 rng ∧
    (mkSessionId rng).length = 13 ∧
    (mkSessionId rng).data.head? = some 's' ∧
    (∀ c ∈ (mkSessionId rng).data, c.isLower ∨ c.isDigit) ∧
    (pool.sticky = true → pool.proxies ≠ [] →
      (pool.next_proxy key rng).1 =
        (pool.proxies[pool.idx % pool.proxies.length]?).map
          (fun p => p.build_url (some (mkSessionId rng)) pool.session_length)) := by
  refine ⟨rfl, ?_, rfl, ?_, ?_⟩
  · rw [mkSessionId]
    show ('s' :: (List.range 12).map _).length = 13
    rw [List.length_cons, List.length_map, List.length_range]
  · intro c hc
    rw [mkSessionId] at hc
    rcases List.mem_cons.mp hc with rfl | hc
    · left; decide
    · obtain ⟨i, _, rfl⟩ := List.mem_map.mp hc
      exact sessionAlphabet_getD (rng i)
  · intro hsticky hne
    rw [next_proxy_nonempty pool key rng hne, hsticky]
    simp

/-- C4 counterexample: the session id generated by a sticky `next_proxy`
call is 13 characters long, not 12 as the claim states (the code
prepends a literal `s` to the twelve random draws). -/
theorem claim_C4_counterexample :
    mkSessionId (fun _ => (0 : Fin 36)) = ("saaaaaaaaaaaa") ∧
    (ProxyPool.next_proxy
        { proxies := [{ scheme := "http", host := "h", port := 80,
                        username := some ("package-1"), password := some ("w") }] }
        "k" (fun _ => (0 : Fin 36))).1 =
      some ("http://package-1-sessionid-saaaaaaaaaaaa:w@h:80") ∧
    ¬ (("saaaaaaaaaaaa" : String).length = 12) := by
  refine ⟨by decide, by decide, by decide⟩

/-- C8: `parse_proxy_line` fails exactly when the stripped line is empty,
starts with `#`, or does not resolve a usable host and nonzero port; any
returned config has a nonempty host and a port in `1..65535`, and its
scheme is `http` whenever the line carried no explicit scheme. -/
theorem claim_C8_parse_failure_conditions (line : String) :
    (parse_proxy_line line = none ↔
      (pyStrip line).data = [] ∨ (pyStrip line).data.head? = some '#' ∨
      lineHostPortOk (pyStrip line) = false) ∧
    (∀ cfg, parse_proxy_line line = some cfg →
      cfg.host ≠ "" ∧ 1 ≤ cfg.port ∧ cfg.port ≤ 65535 ∧
      (lineExplicitScheme (pyStrip line) = none → cfg.scheme = "http")) := by
  by_cases hg : (pyStrip line).data = [] ∨ (pyStrip line).data.head? = some '#'
  · have hnone : parse_proxy_line line = none := by
      simp only [parse_proxy_line]
      rw [if_pos hg]
    refine ⟨iff_of_true hnone (hg.elim Or.inl (fun h => Or.inr (Or.inl h))), ?_⟩
    intro cfg hcfg
    rw [hnone] at hcfg
    exact absurd hcfg (by simp)
  · rcases hm : urlsplitModel (proxyLineNormalize (pyStrip line)) with _ | p
    · have hnone : parse_proxy_line line = none := by
        simp only [parse_proxy_line]
        rw [if_neg hg, hm]
      have hok : lineHostPortOk (pyStrip line) = false := by
        simp only [lineHostPortOk]
        rw [hm]
      refine ⟨iff_of_true hnone (Or.inr (Or.inr hok)), ?_⟩
      intro cfg hcfg
      rw [hnone] at hcfg
      exact absurd hcfg (by simp)
    · have hmrec := hm
      simp only [urlsplitModel] at hmrec
      by_cases hb : bracketImbalanced
          (netlocOf (splitScheme (urlFilter (proxyLineNormalize (pyStrip line)))).2) = true
      · rw [if_pos hb] at hmrec
        exact absurd hmrec (by simp)
      · rw [if_neg hb, Option.some.injEq] at hmrec
        rcases hh : p.hostname with _ | h
        · have hnone : parse_proxy_line line = none := by
            simp only [parse_proxy_line]
            rw [if_neg hg, hm]
            dsimp only
            rw [hh]
          have hok : lineHostPortOk (pyStrip line) = false := by
            simp only [lineHostPortOk]
            rw [hm]
            dsimp only
            rw [hh]
          refine ⟨iff_of_true hnone (Or.inr (Or.inr hok)), ?_⟩
          intro cfg hcfg
          rw [hnone] at hcfg
          exact absurd hcfg (by simp)
        · rcases hp2 : p.port with _ | port
          · have hnone : parse_proxy_line line = none := by
              simp only [parse_proxy_line]
              rw [if_neg hg, hm]
              dsimp only
              rw [hh, hp2]
            have hok : lineHostPortOk (pyStrip line) = false := by
              simp only [lineHostPortOk]
              rw [hm]
              dsimp only
              rw [hh, hp2]
            refine ⟨iff_of_true hnone (Or.inr (Or.inr hok)), ?_⟩
            intro cfg hcfg
            rw [hnone] at hcfg
            exact absurd hcfg (by simp)
          · by_cases hz : port = 0
            · have hnone : parse_proxy_line line = none := by
                simp only [parse_proxy_line]
                rw [if_neg hg, hm]
                dsimp only
                rw [hh, hp2]
                dsimp only
                rw [if_pos hz]
              have hok : lineHostPortOk (pyStrip line) = false := by
                simp only [lineHostPortOk]
                rw [hm]
                dsimp only
                rw [hh, hp2]
                simp [hz]
              refine ⟨iff_of_true hnone (Or.inr (Or.inr hok)), ?_⟩
              intro cfg hcfg
              rw [hnone] at hcfg
              exact absurd hcfg (by simp)
            · have hsome : parse_proxy_line line = some
                  { scheme := if p.scheme = "" then "http" else p.scheme
                    host := h
                    port := port
                    username := match p.username with
                      | some u => if u = "" then none else some (pyUnquote u)
                      | none => none
                    password := match p.password with
                      | some w => if w = "" then none else some (pyUnquote w)
                      | none => none } := by
                simp only [parse_proxy_line]
                rw [if_neg hg, hm]
                dsimp only
                rw [hh, hp2]
                dsimp only
                rw [if_neg hz]
              have hok : lineHostPortOk (pyStrip line) = true := by
                simp only [lineHostPortOk]
                rw [hm]
                dsimp only
                rw [hh, hp2]
                simp [hz]
              constructor
              · refine iff_of_false (by rw [hsome]; simp) ?_
                intro hcon
                rcases hcon with hc | hc | hc
                · exact hg (Or.inl hc)
                · exact hg (Or.inr hc)
                · rw [hok] at hc
                  cases hc
              · intro cfg hcfg
                rw [hsome, Option.some.injEq] at hcfg
                subst hcfg
                refine ⟨?_, Nat.pos_of_ne_zero hz, ?_, ?_⟩
                · have hhost : p.hostname = netlocHostname
                      (netlocOf (splitScheme (urlFilter (proxyLineNormalize (pyStrip line)))).2) := by
                    rw [← hmrec]
                  rw [hhost] at hh
                  exact netlocHostname_ne_empty _ _ hh
                · have hport : p.port = netlocPort
                      (netlocOf (splitScheme (urlFilter (proxyLineNormalize (pyStrip line)))).2) := by
                    rw [← hmrec]
                  rw [hport] at hp2
                  exact netlocPort_le _ _ hp2
                · intro hs
                  have hscheme : p.scheme =
                      ⟨(splitScheme (urlFilter (proxyLineNormalize (pyStrip line)))).1⟩ := by
                    rw [← hmrec]
                  show (if p.scheme = "" then "http" else p.scheme) = "http"
                  rw [hscheme]
                  exact scheme_default_of_no_explicit _ hs

/-- C8 witness: the line `host:8080 user:pass` parses, carries no
explicit scheme, and the returned config has nonempty host, port in
range, and scheme `http`. -/
theorem claim_C8_witness :
    ((⟨"http", "host", 8080, some ("user"), some ("pass")⟩ : ProxyConfig).host ≠ "" ∧
      1 ≤ (⟨"http", "host", 8080, some ("user"), some ("pass")⟩ : ProxyConfig).port ∧
      (⟨"http", "host", 8080, some ("user"), some ("pass")⟩ : ProxyConfig).port ≤ 65535 ∧
      (lineExplicitScheme (pyStrip ("host:8080 user:pass")) = none →
        (⟨"http", "host", 8080, some ("user"), some ("pass")⟩ : ProxyConfig).scheme =
          "http")) :=
  (claim_C8_parse_failure_conditions ("host:8080 user:pass")).2
    ⟨"http", "host", 8080, some ("user"), some ("pass")⟩ (by decide)

/-- C1 (amended): for a line that parses successfully and whose host
component carries no `:`, `[` or `]` (so in particular for all three
supported plain textual shapes), building the URL with no session
arguments round-trips the port exactly and the host up to the hostname
lowercasing the URL parser applies: the built URL resolves to exactly
`(cfg.host, cfg.port)`, and the raw host text of the line maps to
`cfg.host` under `hostnameNorm`. -/
theorem claim_C1_roundtrip (line : String) (cfg : ProxyConfig)
    (hp : parse_proxy_line line = some cfg)
    (hplain : ¬ ':' ∈ cfg.host.data ∧ ¬ '[' ∈ cfg.host.data ∧ ¬ ']' ∈ cfg.host.data) :
    urlHostPort (cfg.build_url none none) = some (cfg.host, cfg.port) ∧
    ∃ rawHost : String, lineRawHostPort line = some (rawHost, cfg.port) ∧
      cfg.host = ⟨hostnameNorm rawHost.data⟩ := by
  obtain ⟨hHne, hple, hdelim, hidem, hraw, hhosteq⟩ := parse_facts line cfg hp
  obtain ⟨hSne, hSchars, hShead⟩ := parse_scheme_ok line cfg hp
  obtain ⟨hcol, hlb, hrb⟩ := hplain
  have hsafe : ∀ c ∈ buildUrlSafe, quoteAlwaysSafe c = true := by decide
  have hH : ∀ c ∈ cfg.host.data, urlPlainChar c = true ∧ c ≠ ':' := by
    intro c hc
    refine ⟨?_, fun e => hcol (e ▸ hc)⟩
    rw [urlPlainChar]
    simp only [decide_eq_true_eq]
    intro hcon
    rcases hcon with e | e | e | e | e | e | e | e | e
    · exact hdelim c hc (Or.inl e)
    · exact hdelim c hc (Or.inr (Or.inl e))
    · exact hdelim c hc (Or.inr (Or.inr (Or.inl e)))
    · exact hdelim c hc (Or.inr (Or.inr (Or.inr (Or.inl e))))
    · exact hlb (e ▸ hc)
    · exact hrb (e ▸ hc)
    · exact hdelim c hc (Or.inr (Or.inr (Or.inr (Or.inr (Or.inl e)))))
    · exact hdelim c hc (Or.inr (Or.inr (Or.inr (Or.inr (Or.inr (Or.inl e))))))
    · exact hdelim c hc (Or.inr (Or.inr (Or.inr (Or.inr (Or.inr (Or.inr e))))))
  have hb : cfg.build_url none none =
      cfg.scheme ++ "://" ++
        (if cfg.username.getD "" ≠ "" ∧ cfg.password.getD "" ≠ "" then
          pyQuote buildUrlSafe (cfg.username.getD "") ++ ":" ++
            pyQuote buildUrlSafe (cfg.password.getD "") ++ "@"
        else if cfg.username.getD "" ≠ "" then
          pyQuote buildUrlSafe (cfg.username.getD "") ++ "@"
        else "") ++ cfg.host ++ ":" ++ natDec cfg.port := rfl
  have hround : urlHostPort (cfg.build_url none none) = some (cfg.host, cfg.port) := by
    by_cases hu : cfg.username.getD "" = ""
    · have hb2 : cfg.build_url none none =
          cfg.scheme ++ "://" ++ "" ++ cfg.host ++ ":" ++ natDec cfg.port := by
        rw [hb, if_neg (fun h => h.1 hu), if_neg (not_not_intro hu)]
      have hdata : (cfg.build_url none none).data =
          cfg.scheme.data ++ ':' :: '/' :: '/' ::
            (("" : String).data ++ (cfg.host.data ++ ':' :: (natDec cfg.port).data)) := by
        rw [hb2]
        exact build_string_data _ _ _ _
      have hstr : cfg.build_url none none =
          (⟨cfg.scheme.data ++ ':' :: '/' :: '/' ::
            (("" : String).data ++ (cfg.host.data ++ ':' :: (natDec cfg.port).data))⟩ :
            String) := congrArg String.mk hdata
      rw [hstr, urlsplit_reconstruct cfg.scheme.data ("" : String).data cfg.host.data
        cfg.port hSne hSchars hShead (Or.inl rfl) hHne hH hple, hidem]
    · by_cases hw : cfg.password.getD "" = ""
      · have hb2 : cfg.build_url none none =
            cfg.scheme ++ "://" ++ (pyQuote buildUrlSafe (cfg.username.getD "") ++ "@") ++
              cfg.host ++ ":" ++ natDec cfg.port := by
          rw [hb, if_neg (fun h => h.2 hw), if_pos hu]
        have hdata : (cfg.build_url none none).data =
            cfg.scheme.data ++ ':' :: '/' :: '/' ::
              ((pyQuote buildUrlSafe (cfg.username.getD "") ++ "@").data ++
                (cfg.host.data ++ ':' :: (natDec cfg.port).data)) := by
          rw [hb2]
          exact build_string_data _ _ _ _
        have hstr : cfg.build_url none none =
            (⟨cfg.scheme.data ++ ':' :: '/' :: '/' ::
              ((pyQuote buildUrlSafe (cfg.username.getD "") ++ "@").data ++
                (cfg.host.data ++ ':' :: (natDec cfg.port).data))⟩ : String) :=
          congrArg String.mk hdata
        have hA : (pyQuote buildUrlSafe (cfg.username.getD "") ++ "@").data = [] ∨
            ∃ A', (pyQuote buildUrlSafe (cfg.username.getD "") ++ "@").data =
              A' ++ [('@' : Char)] ∧ ∀ c ∈ A', urlPlainChar c = true :=
          Or.inr ⟨(pyQuote buildUrlSafe (cfg.username.getD "")).data, rfl,
            fun c hc => (netlocOk_chars hsafe _ c hc).1⟩
        rw [hstr, urlsplit_reconstruct cfg.scheme.data
          ((pyQuote buildUrlSafe (cfg.username.getD "") ++ "@")).data cfg.host.data
          cfg.port hSne hSchars hShead hA hHne hH hple, hidem]
      · have hb2 : cfg.build_url none none =
            cfg.scheme ++ "://" ++
              (pyQuote buildUrlSafe (cfg.username.getD "") ++ ":" ++
                pyQuote buildUrlSafe (cfg.password.getD "") ++ "@") ++
              cfg.host ++ ":" ++ natDec cfg.port := by
          rw [hb, if_pos ⟨hu, hw⟩]
        have hdata : (cfg.build_url none none).data =
            cfg.scheme.data ++ ':' :: '/' :: '/' ::
              ((pyQuote buildUrlSafe (cfg.username.getD "") ++ ":" ++
                pyQuote buildUrlSafe (cfg.password.getD "") ++ "@").data ++
                (cfg.host.data ++ ':' :: (natDec cfg.port).data)) := by
          rw [hb2]
          exact build_string_data _ _ _ _
        have hstr : cfg.build_url none none =
            (⟨cfg.scheme.data ++ ':' :: '/' :: '/' ::
              ((pyQuote buildUrlSafe (cfg.username.getD "") ++ ":" ++
                pyQuote buildUrlSafe (cfg.password.getD "") ++ "@").data ++
                (cfg.host.data ++ ':' :: (natDec cfg.port).data))⟩ : String) :=
          congrArg String.mk hdata
        have hA' : ∀ c ∈ (pyQuote buildUrlSafe (cfg.username.getD "") ++ ":" ++
            pyQuote buildUrlSafe (cfg.password.getD "")).data, urlPlainChar c = true := by
          intro c hc
          have hc2 : c ∈ ((pyQuote buildUrlSafe (cfg.username.getD "")).data ++ [':']) ++
              (pyQuote buildUrlSafe (cfg.password.getD "")).data := hc
          rcases List.mem_append.mp hc2 with hc3 | hc3
          · rcases List.mem_append.mp hc3 with hc4 | hc4
            · exact (netlocOk_chars hsafe _ c hc4).1
            · rcases List.mem_singleton.mp hc4 with rfl
              decide
          · exact (netlocOk_chars hsafe _ c hc3).1
        have hA : (pyQuote buildUrlSafe (cfg.username.getD "") ++ ":" ++
            pyQuote buildUrlSafe (cfg.password.getD "") ++ "@").data = [] ∨
            ∃ A', (pyQuote buildUrlSafe (cfg.username.getD "") ++ ":" ++
              pyQuote buildUrlSafe (cfg.password.getD "") ++ "@").data =
              A' ++ [('@' : Char)] ∧ ∀ c ∈ A', urlPlainChar c = true :=
          Or.inr ⟨(pyQuote buildUrlSafe (cfg.username.getD "") ++ ":" ++
            pyQuote buildUrlSafe (cfg.password.getD "")).data, rfl, hA'⟩
        rw [hstr, urlsplit_reconstruct cfg.scheme.data
          ((pyQuote buildUrlSafe (cfg.username.getD "") ++ ":" ++
            pyQuote buildUrlSafe (cfg.password.getD "") ++ "@")).data cfg.host.data
          cfg.port hSne hSchars hShead hA hHne hH hple, hidem]
  exact ⟨hround, ⟨_, hraw, hhosteq⟩⟩

/-- C1 counterexample: the round-trip is not exact. A line with an
upper-case host (`HOST:8080 user:pass`) parses, its raw host text is
`HOST`, but the built URL resolves to host `host`; a bracketed-IPv6 line
(`u:p@[::1]:80`) parses with raw host `::1`, yet the URL built from it
resolves to no host/port at all, because `build_url` re-emits the host
without brackets. -/
theorem claim_C1_counterexample :
    (parse_proxy_line ("HOST:8080 user:pass") =
        some ⟨"http", "host", 8080, some ("user"), some ("pass")⟩ ∧
      lineRawHostPort ("HOST:8080 user:pass") = some ("HOST", 8080) ∧
      urlHostPort ((⟨"http", "host", 8080, some ("user"), some ("pass")⟩ :
        ProxyConfig).build_url none none) = some ("host", 8080) ∧
      urlHostPort ((⟨"http", "host", 8080, some ("user"), some ("pass")⟩ :
        ProxyConfig).build_url none none) ≠ some ("HOST", 8080)) ∧
    (parse_proxy_line ("u:p@[::1]:80") =
        some ⟨"http", "::1", 80, some ("u"), some ("p")⟩ ∧
      lineRawHostPort ("u:p@[::1]:80") = some ("::1", 80) ∧
      urlHostPort ((⟨"http", "::1", 80, some ("u"), some ("p")⟩ :
        ProxyConfig).build_url none none) = none) := by
  exact ⟨⟨by decide, by decide, by decide, by decide⟩, ⟨by decide, by decide, by decide⟩⟩

/-- C1 witness: the amended round-trip instantiated on the line
`host:8080 user:pass`. -/
theorem claim_C1_roundtrip_witness :
    urlHostPort ((⟨"http", "host", 8080, some ("user"), some ("pass")⟩ :
      ProxyConfig).build_url none none) = some ("host", 8080) ∧
    ∃ rawHost : String, lineRawHostPort ("host:8080 user:pass") = some (rawHost, 8080) ∧
      ("host" : String) = ⟨hostnameNorm rawHost.data⟩ :=
  claim_C1_roundtrip ("host:8080 user:pass")
    ⟨"http", "host", 8080, some ("user"), some ("pass")⟩ (by decide)
    ⟨by decide, by decide, by decide⟩

/-- C9 (amended): with a username set, `build_url` replaces an existing
`sessionid-<x>` token in place (preserving any suffix after the token),
appends `-sessionid-<id>` when the username instead carries a `package-`
template with no session token, and replaces an existing
`sessionlength-<n>` token in place; but when no `sessionlength-` token
exists it appends `-sessionlength-<n>` at the very END of the username —
after any suffix that follows the session-id token — not immediately
after that token.  The receiver is a value; `build_url` is a pure
function of it. -/
theorem claim_C9_session_tokens (cfg : ProxyConfig) (x t y sid : String) (n : Nat)
    (hu : cfg.username = some (x ++ "sessionid-" ++ t ++ y))
    (hxs : ∀ c ∈ x.data, c ≠ 's')
    (htne : t.data ≠ [])
    (htc : ∀ c ∈ t.data, sidTokChar c = true)
    (hyh : (match y.data.head? with
      | some c => sidTokChar c = false
      | none => True))
    (hys : ∀ c ∈ y.data, c ≠ 's')
    (hsid : sid ≠ "")
    (hn : n ≠ 0)
    (hnolen : hasSub (("sessionlength-" : String).data)
      (x ++ "sessionid-" ++ sid ++ y).data = false) :
    subSessionId (x ++ "sessionid-" ++ t ++ y) sid = x ++ "sessionid-" ++ sid ++ y ∧
    cfg.build_url (some sid) (some n) =
      { cfg with username := some (x ++ "sessionid-" ++ sid ++ y ++ "-sessionlength-" ++
          natDec n) }.build_url none none ∧
    (∀ v : String, hasSub (("package-" : String).data) v.data = true →
      hasSub (("sessionid-" : String).data) v.data = false →
      { cfg with username := some v }.build_url (some sid) none =
        { cfg with username := some (v ++ "-sessionid-" ++ sid) }.build_url none none) ∧
    (∀ x2 d y2 : String, (∀ c ∈ x2.data, c ≠ 's') → d.data ≠ [] →
      (∀ c ∈ d.data, c.isDigit = true) →
      (match y2.data.head? with
        | some c => c.isDigit = false
        | none => True) →
      (∀ c ∈ y2.data, c ≠ 's') →
      subSessionLength (x2 ++ "sessionlength-" ++ d ++ y2) n =
        x2 ++ "sessionlength-" ++ natDec n ++ y2) := by
  have h1 : subSessionId (x ++ "sessionid-" ++ t ++ y) sid =
      x ++ "sessionid-" ++ sid ++ y := subSessionId_single x t y sid hxs htne htc hyh hys
  have hdU : (x ++ "sessionid-" ++ t ++ y).data =
      (x.data ++ ("sessionid-" : String).data) ++ (t.data ++ y.data) :=
    List.append_assoc (x.data ++ ("sessionid-" : String).data) t.data y.data
  have hdU1 : (x ++ "sessionid-" ++ sid ++ y).data =
      (x.data ++ ("sessionid-" : String).data) ++ (sid.data ++ y.data) :=
    List.append_assoc (x.data ++ ("sessionid-" : String).data) sid.data y.data
  have hhasU : hasSub (("sessionid-" : String).data) (x ++ "sessionid-" ++ t ++ y).data =
      true := by
    rw [hdU]
    exact hasSub_append (("sessionid-" : String).data) x.data (t.data ++ y.data)
  have hhasU1 : hasSub (("sessionid-" : String).data) (x ++ "sessionid-" ++ sid ++ y).data =
      true := by
    rw [hdU1]
    exact hasSub_append (("sessionid-" : String).data) x.data (sid.data ++ y.data)
  have hUne : x ++ "sessionid-" ++ t ++ y ≠ "" := by
    intro e
    have h0 := hhasU
    rw [congrArg String.data e] at h0
    exact absurd h0 (by decide)
  have hU1ne : x ++ "sessionid-" ++ sid ++ y ≠ "" := by
    intro e
    have h0 := hhasU1
    rw [congrArg String.data e] at h0
    exact absurd h0 (by decide)
  refine ⟨h1, ?_, ?_, ?_⟩
  · have hhasU2 : hasSub ['s', 'e', 's', 's', 'i', 'o', 'n', 'i', 'd', '-']
        (x ++ "sessionid-" ++ t ++ y).data = true := hhasU
    have hhasU12 : hasSub ['s', 'e', 's', 's', 'i', 'o', 'n', 'i', 'd', '-']
        (x ++ "sessionid-" ++ sid ++ y).data = true := hhasU1
    have hnolen2 : hasSub ['s', 'e', 's', 's', 'i', 'o', 'n', 'l', 'e', 'n', 'g', 't', 'h', '-']
        (x ++ "sessionid-" ++ sid ++ y).data = false := hnolen
    have hcond1 : sid ≠ "" ∧ x ++ "sessionid-" ++ t ++ y ≠ "" := ⟨hsid, hUne⟩
    have hcond2 : n ≠ 0 ∧ x ++ "sessionid-" ++ sid ++ y ≠ "" := ⟨hn, hU1ne⟩
    simp only [ProxyConfig.build_url, hu, Option.getD_some]
    rw [if_pos hhasU2, h1, if_pos hcond1, hnolen2, if_neg Bool.false_ne_true,
      if_pos hhasU12, if_pos hcond2]
  · intro v hpk hnosid
    have hvne : v ≠ "" := by
      intro e
      rw [congrArg String.data e] at hpk
      exact absurd hpk (by decide)
    have hpk2 : hasSub ['p', 'a', 'c', 'k', 'a', 'g', 'e', '-'] v.data = true := hpk
    have hnosid2 : hasSub ['s', 'e', 's', 's', 'i', 'o', 'n', 'i', 'd', '-'] v.data =
        false := hnosid
    have hcond3 : sid ≠ "" ∧ v ≠ "" := ⟨hsid, hvne⟩
    simp only [ProxyConfig.build_url, Option.getD_some]
    rw [hnosid2, if_neg Bool.false_ne_true, if_pos hpk2, if_pos hcond3]
  · intro x2 d y2 hx2 hdne hdc hy2h hy2s
    exact subSessionLength_single x2 d y2 n hx2 hdne hdc hy2h hy2s

/-- C9 counterexample: with username `sessionid-abc-x` (session-id token
`sessionid-abc` followed by the suffix `-x`) and a session length, the
code appends `-sessionlength-90` at the end of the username, after the
`-x` suffix, not immediately after the session-id token as the claim
states. -/
theorem claim_C9_counterexample :
    ProxyConfig.build_url
        ⟨"http", "h", 80, some ("sessionid-abc-x"), some ("p")⟩ none (some 90) =
      "http://sessionid-abc-x-sessionlength-90:p@h:80" ∧
    ProxyConfig.build_url
        ⟨"http", "h", 80, some ("sessionid-abc-x"), some ("p")⟩ none (some 90) ≠
      "http://sessionid-abc-sessionlength-90-x:p@h:80" := by
  exact ⟨by decide, by decide⟩

/-- C9 witness: the amended token behaviour instantiated on the username
`package-1-sessionid-abc` with session id `zzz9` and length 90. -/
theorem claim_C9_witness :
    subSessionId ("package-1-sessionid-abc") ("zzz9") =
      ("package-1-" : String) ++ "sessionid-" ++ "zzz9" ++ "" :=
  (claim_C9_session_tokens
    ⟨"http", "h", 80, some ("package-1-sessionid-abc"), some ("p")⟩
    ("package-1-") ("abc") ("") ("zzz9") 90 (by decide) (by decide) (by decide)
    (by decide) (by exact trivial) (by decide) (by decide) (by decide) (by decide)).1

/-- C5 (amended): anchor-href extraction deduplicates by the key
`(place_id or "") + "|" + (data_id or processed href)`, first occurrence
winning: the number of records equals the number of distinct keys among
the matched hrefs.  Two hrefs sharing a place identifier but differing
in query parameters collapse to one record only when they share a data
id; with no data id the fallback key is the whole processed href, so
they yield two records. -/
theorem claim_C5_dedupe (html : String) (places : List PyVal)
    (hp : extract_places_from_html html = some places) :
    places.length =
      countNewKeys [] (findPlaceHrefs (html.data.length + 1) html.data) :=
  extractGo_length (findPlaceHrefs (html.data.length + 1) html.data) [] places hp

/-- C5 counterexample: two hrefs with the same `!1s` place identifier
`ChIabc` and no data id, differing only in a query parameter, produce
TWO candidate records, not one — the fallback dedupe key is the full
href. -/
theorem claim_C5_counterexample :
    ∃ r1 r2 : PyVal,
      extract_places_from_html
          ("<a href=\"/maps/place/Cafe+X/data=!1sChIabc?p=1\"></a><a href=\"/maps/place/Cafe+X/data=!1sChIabc?p=2\"></a>") =
        some [r1, r2] ∧
      dictLookup r1 "place_id" = some (PyVal.str ("ChIabc")) ∧
      dictLookup r2 "place_id" = some (PyVal.str ("ChIabc")) ∧
      dictLookup r1 "maps_url" =
        some (PyVal.str ("https://www.google.com/maps/place/Cafe+X/data=!1sChIabc?p=1")) ∧
      dictLookup r2 "maps_url" =
        some (PyVal.str ("https://www.google.com/maps/place/Cafe+X/data=!1sChIabc?p=2")) :=
  ⟨_, _, rfl, rfl, rfl, rfl, rfl⟩

/-- C5 witness: the dedupe count law instantiated on the two-href
page of the counterexample. -/
theorem claim_C5_witness :
    ∃ places : List PyVal,
      extract_places_from_html
          ("<a href=\"/maps/place/Cafe+X/data=!1sChIabc?p=1\"></a><a href=\"/maps/place/Cafe+X/data=!1sChIabc?p=2\"></a>") =
        some places ∧
      places.length = countNewKeys []
        (findPlaceHrefs
          (("<a href=\"/maps/place/Cafe+X/data=!1sChIabc?p=1\"></a><a href=\"/maps/place/Cafe+X/data=!1sChIabc?p=2\"></a>" : String).data.length + 1)
          (("<a href=\"/maps/place/Cafe+X/data=!1sChIabc?p=1\"></a><a href=\"/maps/place/Cafe+X/data=!1sChIabc?p=2\"></a>" : String).data)) :=
  ⟨_, rfl, claim_C5_dedupe
    ("<a href=\"/maps/place/Cafe+X/data=!1sChIabc?p=1\"></a><a href=\"/maps/place/Cafe+X/data=!1sChIabc?p=2\"></a>") _ rfl⟩

/-- C10: every record the anchor-href extractor returns carries a
`gps_coordinates` object with both `latitude` and `longitude` keys —
null values rather than omitted keys when the href has no coordinate
marker — and its `maps_url` is the provider domain prefixed to the
href. -/
theorem claim_C10_gps_and_url (html : String) (places : List PyVal)
    (hp : extract_places_from_html html = some places) :
    ∀ p ∈ places, ∃ la lo : PyVal,
      dictLookup p "gps_coordinates" =
        some (PyVal.dict [("latitude", la), ("longitude", lo)]) ∧
      (la = PyVal.none ∨ ∃ q : Rat, la = PyVal.float q) ∧
      (lo = PyVal.none ∨ ∃ q : Rat, lo = PyVal.float q) ∧
      (la = PyVal.none ↔ lo = PyVal.none) ∧
      (∃ href : List Char, dictLookup p "maps_url" =
        some (PyVal.str ⟨(("https://www.google.com" : String).data) ++ href⟩)) := by
  intro p hpmem
  obtain ⟨title, pid, did, dcid, href, la, lo, rfl, hiff1, hiff2⟩ :=
    extractGo_shape (findPlaceHrefs (html.data.length + 1) html.data) [] places hp p hpmem
  rcases la with _ | laq
  · rcases lo with _ | loq
    · exact ⟨PyVal.none, PyVal.none, rfl, Or.inl rfl, Or.inl rfl,
        iff_of_true rfl rfl, ⟨href, rfl⟩⟩
    · exact absurd (hiff2.mp rfl) (by simp)
  · rcases lo with _ | loq
    · exact absurd (hiff2.mpr rfl) (by simp)
    · exact ⟨PyVal.float laq, PyVal.float loq, rfl, Or.inr ⟨laq, rfl⟩,
        Or.inr ⟨loq, rfl⟩, iff_of_false (by simp) (by simp), ⟨href, rfl⟩⟩

/-- C10 witness: a page with one coordinate-free href yields a record
whose gps object holds null latitude and longitude and whose maps_url
is the domain-prefixed href. -/
theorem claim_C10_witness :
    ∃ la lo : PyVal,
      dictLookup (PyVal.dict
        [("title", PyVal.str ("Cafe")), ("place_id", PyVal.none),
         ("data_id", PyVal.none), ("data_cid", PyVal.none),
         ("maps_url", PyVal.str ("https://www.google.com/maps/place/Cafe")),
         ("gps_coordinates", PyVal.dict
           [("latitude", PyVal.none), ("longitude", PyVal.none)])])
        "gps_coordinates" = some (PyVal.dict [("latitude", la), ("longitude", lo)]) ∧
      (la = PyVal.none ∨ ∃ q : Rat, la = PyVal.float q) ∧
      (lo = PyVal.none ∨ ∃ q : Rat, lo = PyVal.float q) ∧
      (la = PyVal.none ↔ lo = PyVal.none) ∧
      (∃ href : List Char, dictLookup (PyVal.dict
        [("title", PyVal.str ("Cafe")), ("place_id", PyVal.none),
         ("data_id", PyVal.none), ("data_cid", PyVal.none),
         ("maps_url", PyVal.str ("https://www.google.com/maps/place/Cafe")),
         ("gps_coordinates", PyVal.dict
           [("latitude", PyVal.none), ("longitude", PyVal.none)])])
        "maps_url" =
        some (PyVal.str ⟨(("https://www.google.com" : String).data) ++ href⟩)) :=
  claim_C10_gps_and_url ("zz href=\"/maps/place/Cafe\" tail") _ rfl _
    (List.mem_cons_self _ _)

/-- C6 (amended): JSON-LD parsing scans the `application/ld+json`
script blocks in document order and returns the first list element or
top-level object whose `@type` is in the fixed business-entity set,
stopping at that first type-matching hit; if no block type-matches it
returns the first syntactically valid NON-EMPTY JSON object (an empty
`\x7b\x7d` block does not lock in the fallback, because assigning it to `best`
leaves `best` falsy), and an empty object when there is none — except
that a parsed block whose value carries a list- or dict-valued `@type`
(at top level, or on a list element examined before any hit) raises an
uncaught `TypeError` out of the function, because the set-membership
test hashes `@type` OUTSIDE the `try`, which wraps only `json.loads`;
`Option.none` models that raise. -/
theorem claim_C6_jsonld_selection (place_html : String) :
    parse_jsonld place_html =
      match specFirstTypeHit
          (findLdBlocks (place_html.data.length + 1) place_html.data) with
      | Option.none => Option.none
      | some (some v) => some v
      | some Option.none =>
        some (match specFirstNonemptyObj
            (findLdBlocks (place_html.data.length + 1) place_html.data) with
        | some kvs => PyVal.dict kvs
        | Option.none => PyVal.dict []) :=
  parse_jsonld_go_spec (findLdBlocks (place_html.data.length + 1) place_html.data) []

/-- C6 counterexample: with a first block parsing to `\x7b\x7d` (a valid
JSON object) and a second non-type-matching block parsing to
`\x7b"a": 1\x7d`, the function returns the SECOND object, not the first
syntactically valid one as the claim states; and a single block whose
object carries the unhashable `@type` value `["Restaurant"]` does not
return anything at all — the membership test raises `TypeError` — where
the claim would have it fall back to the object itself. -/
theorem claim_C6_counterexample :
    parse_jsonld
        ("<script type=\"application/ld+json\">\x7b\x7d</script><script type=\"application/ld+json\">\x7b\"a\": 1\x7d</script>")
      = some (PyVal.dict [("a", PyVal.int 1)]) ∧
    parse_jsonld
        ("<script type=\"application/ld+json\">\x7b\"@type\": [\"Restaurant\"], \"a\": 1\x7d</script>")
      = Option.none ∧
    ∃ b1 b2 : List Char,
      findLdBlocks
          (("<script type=\"application/ld+json\">\x7b\x7d</script><script type=\"application/ld+json\">\x7b\"a\": 1\x7d</script>" : String).data.length + 1)
          (("<script type=\"application/ld+json\">\x7b\x7d</script><script type=\"application/ld+json\">\x7b\"a\": 1\x7d</script>" : String).data)
        = [b1, b2] ∧
      blockValue b1 = some (PyVal.dict []) ∧
      blockValue b2 = some (PyVal.dict [("a", PyVal.int 1)]) :=
  ⟨rfl, rfl, _, _, rfl, rfl, rfl⟩

/-- C7 (amended): the embedded-data walk is depth-limited (total by
construction) and emits a record only for dict nodes carrying a `title`
or `name` key — the record's title is the `name` value when present
(overriding `title`), else the `title` value; a dict carrying only
`place_id` or `fsq_id` emits nothing, because its candidate record stays
empty and is dropped by the truthiness check.  The
`AF_initDataCallback` example blob yields exactly
`[\x7b"title": "Cafe X"\x7d]`. -/
theorem claim_C7_walk_records (kvs : List (String × PyVal)) (fuel : Nat) :
    (lookupKey kvs "title" = Option.none → lookupKey kvs "name" = Option.none →
      extractRec (fuel + 1) (PyVal.dict kvs) =
        (kvs.map (fun kv => extractRec fuel kv.2)).flatten) ∧
    (∀ v, lookupKey kvs "name" = some v →
      extractRec (fuel + 1) (PyVal.dict kvs) =
        PyVal.dict [("title", v)] ::
          (kvs.map (fun kv => extractRec fuel kv.2)).flatten) ∧
    (∀ v, lookupKey kvs "title" = some v → lookupKey kvs "name" = Option.none →
      extractRec (fuel + 1) (PyVal.dict kvs) =
        PyVal.dict [("title", v)] ::
          (kvs.map (fun kv => extractRec fuel kv.2)).flatten) ∧
    extract_json_data
        ("AF_initDataCallback(\x7bkey: \"x\", data:function()\x7breturn [[\x7b\"title\":\"Cafe X\"\x7d]]\x7d\x7d);")
      = [PyVal.dict [("title", PyVal.str ("Cafe X"))]] := by
  refine ⟨?_, ?_, ?_, rfl⟩
  · intro ht hn
    show (match placeOfDict kvs with
      | some p => [p]
      | Option.none => []) ++ (kvs.map (fun kv => extractRec fuel kv.2)).flatten = _
    rw [placeOfDict_none kvs ht hn]
    exact List.nil_append _
  · intro v hn
    show (match placeOfDict kvs with
      | some p => [p]
      | Option.none => []) ++ (kvs.map (fun kv => extractRec fuel kv.2)).flatten = _
    rw [placeOfDict_name kvs v hn]
    exact List.singleton_append
  · intro v ht hn
    show (match placeOfDict kvs with
      | some p => [p]
      | Option.none => []) ++ (kvs.map (fun kv => extractRec fuel kv.2)).flatten = _
    rw [placeOfDict_title kvs v ht hn]
    exact List.singleton_append

/-- C7 counterexample: a node carrying only a `place_id` key yields NO
record at all — the claim's "every dictionary-like node carrying a
title, name, place_id, or fsq_id key yields a minimal record" fails for
identifier-only nodes. -/
theorem claim_C7_counterexample :
    extract_from_google_data
        (PyVal.list [PyVal.dict [("place_id", PyVal.str ("x"))]]) = [] ∧
    extract_from_google_data
        (PyVal.list [PyVal.dict [("fsq_id", PyVal.str ("y"))]]) = [] :=
  ⟨rfl, rfl⟩

/-- C3 (code bug): the enrichment body is dead code, so the claimed
field-by-field fail-soft coercion behaviour describes unreachable
statements.  Line 628 binds the whole `(content, page)` value returned
by `fetch_page_with_playwright` — declared `-> tuple[str, Page]` and
ending `return content, page` (line 368) — to `html_content` WITHOUT
unpacking it (contrast `scrape_search_results`, line 593), so
`parse_jsonld(html_content)` hands a tuple to `re.findall`, which
raises `TypeError`, and the `except Exception` at line 738 returns the
seed.  Hence for EVERY seed with a truthy `maps_url` and EVERY
successfully fetched page, `scrape_place_detail` returns the seed
unchanged; the `float`/`int` coercions are never reached. -/
theorem claim_C3_enrichment_dead (seed : List (String × PyVal)) (content : String) :
    scrape_place_detail seed (fetchResult content) = PyVal.dict seed := by
  have hcore : scrape_place_detail_core seed (fetchResult content) = Option.none := rfl
  rw [scrape_place_detail]
  by_cases h : pyTruthy ((lookupKey seed "maps_url").getD PyVal.none) = true
  · rw [if_pos h, hcore]
  · rw [if_neg h]

end MapsScraper
